import Mathlib

/-!
Verification of the weld-line section-property engine and its surrounding
application logic (a TypeScript single-page application).

The development shallowly embeds:
* `calculateWeldProperties` (services/calculationService.ts): the pure
  geometry engine mapping a node list and a line list to optional section
  properties.  JavaScript doubles are idealised as real numbers and
  `Math.sqrt` as `Real.sqrt`.
* the verification-summary construction of `VerificationPage`
  (components/VerificationPage.tsx): the fixture catalogue, the manual
  formula results and the per-property comparison entries.
* the editor state machine of `App.tsx`: node/line creation, line
  splitting, deletion, reset, as a labelled transition system.
-/

namespace WeldCalc

/-- A node of the sketch: `{id, x, y}` as in types.ts, coordinates in mm. -/
structure Node where
  id : ℤ
  x : ℝ
  y : ℝ

/-- A line of the sketch: `{id, startNodeId, endNodeId}` as in types.ts. -/
structure Line where
  id : ℤ
  startNodeId : ℤ
  endNodeId : ℤ

/-- Centroid record of the result, in mm. -/
structure Centroid where
  x : ℝ
  y : ℝ

/-- Inertia record of the result, in cm³ magnitude. -/
structure Inertia where
  ixx : ℝ
  iyy : ℝ
  ixy : ℝ

/-- Extreme-distance record of the result, in mm. -/
structure ExtremeDistances where
  cTop : ℝ
  cBottom : ℝ
  cLeft : ℝ
  cRight : ℝ

/-- The `CalculationResults` record of types.ts. -/
structure CalculationResults where
  centroid : Centroid
  inertia : Inertia
  totalLength : ℝ
  extremeDistances : ExtremeDistances

/-- Lookup in the node map.  The source builds
`new Map(nodes.map(n => [n.id, n]))` and calls `nodeMap.get(id)`; a JS Map
keeps the last entry for a repeated key, which the fold below reproduces. -/
def nodeMapGet (nodes : List Node) (i : ℤ) : Option Node :=
  nodes.foldl (fun acc n => if n.id = i then some n else acc) none

/-- Accumulator state of the main loop of `calculateWeldProperties`:
`totalLength`, `sumLx`, `sumLy`, `totalInertiaOx`, `totalInertiaOy`,
`totalInertiaOxy`. -/
structure Acc where
  totalLength : ℝ
  sumLx : ℝ
  sumLy : ℝ
  inertiaOx : ℝ
  inertiaOy : ℝ
  inertiaOxy : ℝ

/-- The zero-initialised accumulator (lines 8-14 of the source). -/
def Acc.init : Acc := ⟨0, 0, 0, 0, 0, 0⟩

/-- One iteration of the `for (const line of lines)` loop: resolve the
endpoints (skipping when either is missing), compute the Euclidean length
(skipping when it is zero), then add the length, the length-weighted
midpoint and the origin second moments of the segment. -/
noncomputable def stepLine (nodes : List Node) (acc : Acc) (line : Line) : Acc :=
  match nodeMapGet nodes line.startNodeId, nodeMapGet nodes line.endNodeId with
  | some startNode, some endNode =>
    let x1 := startNode.x
    let y1 := startNode.y
    let x2 := endNode.x
    let y2 := endNode.y
    let length := Real.sqrt ((x2 - x1) * (x2 - x1) + (y2 - y1) * (y2 - y1))
    if length = 0 then acc
    else
      { totalLength := acc.totalLength + length
        sumLx := acc.sumLx + length * ((x1 + x2) / 2)
        sumLy := acc.sumLy + length * ((y1 + y2) / 2)
        inertiaOx := acc.inertiaOx + (y1 * y1 + y1 * y2 + y2 * y2) * length / 3
        inertiaOy := acc.inertiaOy + (x1 * x1 + x1 * x2 + x2 * x2) * length / 3
        inertiaOxy := acc.inertiaOxy +
          (x1 * y1 + x2 * y2 + (x1 * y2 + x2 * y1) / 2) * length / 3 }
  | _, _ => acc

/-- The whole accumulation loop over the line collection. -/
noncomputable def runAcc (nodes : List Node) (lines : List Line) : Acc :=
  lines.foldl (stepLine nodes) Acc.init

/-- Least x over the node list.  The source folds `Math.min` starting at
`Infinity`; for a nonempty list this equals folding from the first node's
coordinate, and the empty case is unreachable (the function has already
returned `null` when `nodes` is empty), so any value serves there. -/
def minXOf : List Node → ℝ
  | [] => 0
  | n :: ns => ns.foldl (fun m k => min m k.x) n.x

/-- Least y over the node list (same convention as `minXOf`). -/
def minYOf : List Node → ℝ
  | [] => 0
  | n :: ns => ns.foldl (fun m k => min m k.y) n.y

/-- Greatest x over the node list (the source folds `Math.max` from
`-Infinity`). -/
def maxXOf : List Node → ℝ
  | [] => 0
  | n :: ns => ns.foldl (fun m k => max m k.x) n.x

/-- Greatest y over the node list (same convention as `maxXOf`). -/
def maxYOf : List Node → ℝ
  | [] => 0
  | n :: ns => ns.foldl (fun m k => max m k.y) n.y

/-- The engine `calculateWeldProperties(nodes, lines)` of
services/calculationService.ts: `null` becomes `none`. -/
noncomputable def calculateWeldProperties (nodes : List Node) (lines : List Line) :
    Option CalculationResults :=
  if lines.isEmpty || nodes.isEmpty then none
  else
    let acc := runAcc nodes lines
    if acc.totalLength = 0 then none
    else
      let centroidX := acc.sumLx / acc.totalLength
      let centroidY := acc.sumLy / acc.totalLength
      let ixxMm3 := acc.inertiaOx - acc.totalLength * centroidY * centroidY
      let iyyMm3 := acc.inertiaOy - acc.totalLength * centroidX * centroidX
      let ixyMm3 := acc.inertiaOxy - acc.totalLength * centroidX * centroidY
      some
        { centroid := ⟨centroidX, centroidY⟩
          inertia := ⟨ixxMm3 / 1000, iyyMm3 / 1000, ixyMm3 / 1000⟩
          totalLength := acc.totalLength
          extremeDistances :=
            { cTop := maxYOf nodes - centroidY
              cBottom := centroidY - minYOf nodes
              cLeft := centroidX - minXOf nodes
              cRight := maxXOf nodes - centroidX } }

/-- Euclidean length of the segment between two resolved nodes, exactly as
the loop computes it. -/
noncomputable def segLength (s e : Node) : ℝ :=
  Real.sqrt ((e.x - s.x) * (e.x - s.x) + (e.y - s.y) * (e.y - s.y))

/-- Resolution of a line against the node collection: `some (start, end)`
when both endpoint ids resolve, `none` otherwise. -/
def resolveLine (nodes : List Node) (l : Line) : Option (Node × Node) :=
  match nodeMapGet nodes l.startNodeId, nodeMapGet nodes l.endNodeId with
  | some s, some e => some (s, e)
  | _, _ => none

/-- The resolved, non-zero-length segments of the line collection, in
order: the segments the loop does not skip. -/
noncomputable def validSegments (nodes : List Node) (lines : List Line) :
    List (Node × Node) :=
  (lines.filterMap (resolveLine nodes)).filter fun p => decide (segLength p.1 p.2 ≠ 0)

/-- Total length of the valid lines, as the spec words it: the sum of the
Euclidean lengths of the lines whose endpoints resolve and are not
coincident. -/
noncomputable def totalValidLength (nodes : List Node) (lines : List Line) : ℝ :=
  ((validSegments nodes lines).map fun p => segLength p.1 p.2).sum

/-- Length-weighted midpoint x of a segment, the `sumLx` increment. -/
noncomputable def segMidXTerm (p : Node × Node) : ℝ :=
  segLength p.1 p.2 * ((p.1.x + p.2.x) / 2)

/-- Length-weighted midpoint y of a segment, the `sumLy` increment. -/
noncomputable def segMidYTerm (p : Node × Node) : ℝ :=
  segLength p.1 p.2 * ((p.1.y + p.2.y) / 2)

/-- Closed-form origin moment about the x axis of one segment. -/
noncomputable def segIxTerm (p : Node × Node) : ℝ :=
  (p.1.y * p.1.y + p.1.y * p.2.y + p.2.y * p.2.y) * segLength p.1 p.2 / 3

/-- Closed-form origin moment about the y axis of one segment. -/
noncomputable def segIyTerm (p : Node × Node) : ℝ :=
  (p.1.x * p.1.x + p.1.x * p.2.x + p.2.x * p.2.x) * segLength p.1 p.2 / 3

/-- Closed-form origin product of inertia of one segment. -/
noncomputable def segIxyTerm (p : Node × Node) : ℝ :=
  (p.1.x * p.1.y + p.2.x * p.2.y + (p.1.x * p.2.y + p.2.x * p.1.y) / 2) *
    segLength p.1 p.2 / 3

lemma validSegments_nil (nodes : List Node) : validSegments nodes [] = [] := rfl

lemma validSegments_cons (nodes : List Node) (l : Line) (ls : List Line) :
    validSegments nodes (l :: ls) =
      match resolveLine nodes l with
      | none => validSegments nodes ls
      | some p =>
        if segLength p.1 p.2 = 0 then validSegments nodes ls
        else p :: validSegments nodes ls := by
  unfold validSegments
  cases h : resolveLine nodes l with
  | none => simp [List.filterMap_cons, h]
  | some p =>
    simp only [List.filterMap_cons, h, List.filter_cons]
    by_cases h0 : segLength p.1 p.2 = 0
    · simp [h0]
    · simp [h0]

lemma validSegments_nodes_nil (lines : List Line) : validSegments [] lines = [] := by
  induction lines with
  | nil => rfl
  | cons l ls ih =>
    rw [validSegments_cons]
    have : resolveLine [] l = none := rfl
    rw [this]
    exact ih

/-- One loop iteration, re-expressed through `resolveLine` and `segLength`. -/
lemma stepLine_eq (nodes : List Node) (acc : Acc) (l : Line) :
    stepLine nodes acc l =
      match resolveLine nodes l with
      | none => acc
      | some p =>
        if segLength p.1 p.2 = 0 then acc
        else
          { totalLength := acc.totalLength + segLength p.1 p.2
            sumLx := acc.sumLx + segMidXTerm p
            sumLy := acc.sumLy + segMidYTerm p
            inertiaOx := acc.inertiaOx + segIxTerm p
            inertiaOy := acc.inertiaOy + segIyTerm p
            inertiaOxy := acc.inertiaOxy + segIxyTerm p } := by
  unfold stepLine resolveLine segLength segMidXTerm segMidYTerm segIxTerm segIyTerm
    segIxyTerm
  cases nodeMapGet nodes l.startNodeId <;> cases nodeMapGet nodes l.endNodeId <;> rfl

/-- The accumulation loop, run from any starting accumulator, adds exactly
the closed-form per-segment sums over the valid segments. -/
lemma foldl_stepLine_eq (nodes : List Node) :
    ∀ (lines : List Line) (acc : Acc),
      lines.foldl (stepLine nodes) acc =
        { totalLength := acc.totalLength +
            ((validSegments nodes lines).map fun p => segLength p.1 p.2).sum
          sumLx := acc.sumLx + ((validSegments nodes lines).map segMidXTerm).sum
          sumLy := acc.sumLy + ((validSegments nodes lines).map segMidYTerm).sum
          inertiaOx := acc.inertiaOx + ((validSegments nodes lines).map segIxTerm).sum
          inertiaOy := acc.inertiaOy + ((validSegments nodes lines).map segIyTerm).sum
          inertiaOxy := acc.inertiaOxy +
            ((validSegments nodes lines).map segIxyTerm).sum }
  | [], acc => by simp [validSegments_nil]
  | l :: ls, acc => by
    rw [List.foldl_cons, foldl_stepLine_eq nodes ls, validSegments_cons,
      stepLine_eq]
    cases h : resolveLine nodes l with
    | none => simp
    | some p =>
      by_cases h0 : segLength p.1 p.2 = 0
      · simp [h0]
      · simp only [if_neg h0, List.map_cons, List.sum_cons, Acc.mk.injEq]
        refine ⟨by ring, by ring, by ring, by ring, by ring, by ring⟩

/-- The whole loop from the zero accumulator. -/
lemma runAcc_eq (nodes : List Node) (lines : List Line) :
    runAcc nodes lines =
      { totalLength := ((validSegments nodes lines).map fun p => segLength p.1 p.2).sum
        sumLx := ((validSegments nodes lines).map segMidXTerm).sum
        sumLy := ((validSegments nodes lines).map segMidYTerm).sum
        inertiaOx := ((validSegments nodes lines).map segIxTerm).sum
        inertiaOy := ((validSegments nodes lines).map segIyTerm).sum
        inertiaOxy := ((validSegments nodes lines).map segIxyTerm).sum } := by
  simpa [Acc.init] using foldl_stepLine_eq nodes lines Acc.init

lemma runAcc_totalLength (nodes : List Node) (lines : List Line) :
    (runAcc nodes lines).totalLength = totalValidLength nodes lines := by
  rw [runAcc_eq]; rfl

/-- C1: for every resolved, non-zero-length line from `(x1,y1)` to
`(x2,y2)` with length `L`, the engine accumulates the second moments about
the origin exactly by the closed forms
`Ix += (y1² + y1·y2 + y2²)·L/3`, `Iy += (x1² + x1·x2 + x2²)·L/3` and
`Ixy += (x1·y1 + x2·y2 + (x1·y2 + x2·y1)/2)·L/3`, summed over all such
lines, with no numerical quadrature. -/
theorem origin_moments_closed_form (nodes : List Node) (lines : List Line) :
    (runAcc nodes lines).inertiaOx =
      ((validSegments nodes lines).map fun p =>
        (p.1.y * p.1.y + p.1.y * p.2.y + p.2.y * p.2.y) * segLength p.1 p.2 / 3).sum ∧
    (runAcc nodes lines).inertiaOy =
      ((validSegments nodes lines).map fun p =>
        (p.1.x * p.1.x + p.1.x * p.2.x + p.2.x * p.2.x) * segLength p.1 p.2 / 3).sum ∧
    (runAcc nodes lines).inertiaOxy =
      ((validSegments nodes lines).map fun p =>
        (p.1.x * p.1.y + p.2.x * p.2.y + (p.1.x * p.2.y + p.2.x * p.1.y) / 2) *
          segLength p.1 p.2 / 3).sum := by
  rw [runAcc_eq]
  exact ⟨rfl, rfl, rfl⟩

lemma nodeMapGet_singleton (n m : Node) (i : ℤ)
    (h : nodeMapGet [n] i = some m) : m = n := by
  unfold nodeMapGet at h
  rw [List.foldl_cons, List.foldl_nil] at h
  by_cases hi : n.id = i
  · rw [if_pos hi] at h
    injection h with h
    exact h.symm
  · rw [if_neg hi] at h
    cases h

/-- With a single node in the collection every resolvable line is a
self-segment of length zero, so no segment is valid. -/
lemma validSegments_single_node (n : Node) (lines : List Line) :
    validSegments [n] lines = [] := by
  induction lines with
  | nil => rfl
  | cons l ls ih =>
    rw [validSegments_cons]
    cases hr : resolveLine [n] l with
    | none => exact ih
    | some p =>
      have h0 : segLength p.1 p.2 = 0 := by
        unfold resolveLine at hr
        cases hs : nodeMapGet [n] l.startNodeId with
        | none => rw [hs] at hr; cases hr
        | some a =>
          cases he : nodeMapGet [n] l.endNodeId with
          | none => rw [hs, he] at hr; cases hr
          | some b =>
            rw [hs, he] at hr
            injection hr with hr
            subst hr
            rw [nodeMapGet_singleton n a _ hs, nodeMapGet_singleton n b _ he]
            show segLength n n = 0
            unfold segLength
            rw [show (n.x - n.x) * (n.x - n.x) + (n.y - n.y) * (n.y - n.y) = 0
              by ring, Real.sqrt_zero]
      dsimp only
      rw [if_pos h0]
      exact ih

/-- C2: the engine returns no result exactly when the total length of the
valid lines (those whose endpoint ids resolve to nodes and whose resolved
endpoints are not coincident) is zero; in particular fewer than 2 nodes
(so also the empty collections and the all-dangling or all-zero-length
collections) yield `none`, and a positive total valid length yields a
result. -/
theorem no_result_iff_zero_valid_length (nodes : List Node) (lines : List Line) :
    (calculateWeldProperties nodes lines = none ↔
      totalValidLength nodes lines = 0) ∧
    (nodes.length < 2 → calculateWeldProperties nodes lines = none) := by
  have hiff : calculateWeldProperties nodes lines = none ↔
      totalValidLength nodes lines = 0 := by
    unfold calculateWeldProperties
    cases lines with
    | nil =>
      simp [totalValidLength, validSegments_nil]
    | cons l ls =>
      cases nodes with
      | nil =>
        simp [totalValidLength, validSegments_nodes_nil]
      | cons n ns =>
        simp only [List.isEmpty_cons, Bool.or_false, Bool.false_or, if_neg,
          Bool.false_eq_true, not_false_iff]
        rw [runAcc_totalLength]
        by_cases h : totalValidLength (n :: ns) (l :: ls) = 0
        · simp [h]
        · simp [h]
  refine ⟨hiff, ?_⟩
  intro hlen
  rw [hiff]
  cases nodes with
  | nil => rw [show totalValidLength [] lines = 0 by
      unfold totalValidLength
      rw [validSegments_nodes_nil]
      rfl]
  | cons n ns =>
    cases ns with
    | nil =>
      unfold totalValidLength
      rw [validSegments_single_node]
      rfl
    | cons m ms =>
      exfalso
      simp only [List.length_cons] at hlen
      omega

/-- Coincident endpoints and zero computed length agree over the reals:
the loop's `length === 0` skip is exactly the coincident-endpoint test. -/
lemma segLength_eq_zero_iff (s e : Node) :
    segLength s e = 0 ↔ s.x = e.x ∧ s.y = e.y := by
  unfold segLength
  rw [show (e.x - s.x) * (e.x - s.x) + (e.y - s.y) * (e.y - s.y)
        = (e.x - s.x) ^ 2 + (e.y - s.y) ^ 2 by ring]
  rw [Real.sqrt_eq_zero (by positivity)]
  constructor
  · intro h
    have hx : (e.x - s.x) ^ 2 = 0 ∧ (e.y - s.y) ^ 2 = 0 := by
      constructor <;> nlinarith [sq_nonneg (e.x - s.x), sq_nonneg (e.y - s.y)]
    constructor
    · have := sq_eq_zero_iff.mp hx.1
      linarith
    · have := sq_eq_zero_iff.mp hx.2
      linarith
  · rintro ⟨hx, hy⟩
    rw [hx, hy]
    ring

/-- Evaluation helper: a segment length is `L` once the squared distance is
recognised as `L * L` with `L` nonnegative. -/
lemma segLength_eval (s e : Node) (L : ℝ) (hL : 0 ≤ L)
    (h : (e.x - s.x) * (e.x - s.x) + (e.y - s.y) * (e.y - s.y) = L * L) :
    segLength s e = L := by
  unfold segLength
  rw [h, show L * L = L ^ 2 by ring, Real.sqrt_sq hL]

/-- Evaluation helper: one loop iteration on a resolvable line of nonzero
length, with every field made explicit. -/
lemma stepLine_eval (nodes : List Node) (acc : Acc) (l : Line) (s e : Node)
    (hr : resolveLine nodes l = some (s, e)) (L : ℝ)
    (hL : segLength s e = L) (hL0 : L ≠ 0) :
    stepLine nodes acc l =
      { totalLength := acc.totalLength + L
        sumLx := acc.sumLx + L * ((s.x + e.x) / 2)
        sumLy := acc.sumLy + L * ((s.y + e.y) / 2)
        inertiaOx := acc.inertiaOx + (s.y * s.y + s.y * e.y + e.y * e.y) * L / 3
        inertiaOy := acc.inertiaOy + (s.x * s.x + s.x * e.x + e.x * e.x) * L / 3
        inertiaOxy := acc.inertiaOxy +
          (s.x * s.y + e.x * e.y + (s.x * e.y + e.x * s.y) / 2) * L / 3 } := by
  rw [stepLine_eq, hr]
  unfold segMidXTerm segMidYTerm segIxTerm segIyTerm segIxyTerm
  simp only [hL]
  rw [if_neg hL0]

/-- Nodes of the single-vertical-line fixture: (0,0) and (0,100). -/
def vNodes : List Node := [⟨1, 0, 0⟩, ⟨2, 0, 100⟩]

/-- The single line of the vertical fixture. -/
def vLines : List Line := [⟨1, 1, 2⟩]

/-- The engine's output on the vertical fixture. -/
noncomputable def vRes : CalculationResults :=
  ⟨⟨0, 50⟩, ⟨250 / 3, 0, 0⟩, 100, ⟨50, 50, 0, 0⟩⟩

lemma resolve_vertical :
    resolveLine vNodes ⟨1, 1, 2⟩ = some (⟨1, 0, 0⟩, ⟨2, 0, 100⟩) := by
  norm_num [resolveLine, nodeMapGet, vNodes]

lemma runAcc_vertical : runAcc vNodes vLines = ⟨100, 0, 5000, 1000000 / 3, 0, 0⟩ := by
  unfold runAcc vLines
  rw [List.foldl_cons, List.foldl_nil,
    stepLine_eval vNodes Acc.init _ _ _ resolve_vertical 100
      (segLength_eval _ _ 100 (by norm_num) (by norm_num)) (by norm_num)]
  unfold Acc.init
  norm_num

lemma eval_vertical : calculateWeldProperties vNodes vLines = some vRes := by
  unfold calculateWeldProperties
  rw [if_neg (by norm_num [vNodes, vLines])]
  simp only [runAcc_vertical]
  rw [if_neg (by norm_num)]
  unfold vRes
  norm_num [minXOf, minYOf, maxXOf, maxYOf, vNodes]

/-- C3: whenever the engine returns a result, the three inertia values are
the origin-based closed-form sums shifted to centroidal axes by the
parallel-axis theorem with total length as the area
(`Ixx = Ix_origin − ΣL·ȳ²`, `Iyy = Iy_origin − ΣL·x̄²`,
`Ixy = Ixy_origin − ΣL·x̄·ȳ`) and divided by 1000 exactly once, while
totalLength, centroid and extreme distances stay undivided, in mm. -/
theorem inertia_parallel_axis_divided_once
    (nodes : List Node) (lines : List Line) (r : CalculationResults)
    (h : calculateWeldProperties nodes lines = some r) :
    r.totalLength = totalValidLength nodes lines ∧
    r.centroid.x =
      ((validSegments nodes lines).map segMidXTerm).sum / totalValidLength nodes lines ∧
    r.centroid.y =
      ((validSegments nodes lines).map segMidYTerm).sum / totalValidLength nodes lines ∧
    r.inertia.ixx = (((validSegments nodes lines).map segIxTerm).sum
        - totalValidLength nodes lines * r.centroid.y ^ 2) / 1000 ∧
    r.inertia.iyy = (((validSegments nodes lines).map segIyTerm).sum
        - totalValidLength nodes lines * r.centroid.x ^ 2) / 1000 ∧
    r.inertia.ixy = (((validSegments nodes lines).map segIxyTerm).sum
        - totalValidLength nodes lines * r.centroid.x * r.centroid.y) / 1000 ∧
    r.extremeDistances.cTop = maxYOf nodes - r.centroid.y ∧
    r.extremeDistances.cBottom = r.centroid.y - minYOf nodes ∧
    r.extremeDistances.cLeft = r.centroid.x - minXOf nodes ∧
    r.extremeDistances.cRight = maxXOf nodes - r.centroid.x := by
  simp only [calculateWeldProperties] at h
  by_cases hg : (lines.isEmpty || nodes.isEmpty) = true
  · rw [if_pos hg] at h; cases h
  · rw [if_neg hg] at h
    by_cases h0 : (runAcc nodes lines).totalLength = 0
    · rw [if_pos h0] at h; cases h
    · rw [if_neg h0] at h
      injection h with h
      subst h
      have hA := runAcc_eq nodes lines
      have hTL : (runAcc nodes lines).totalLength = totalValidLength nodes lines :=
        runAcc_totalLength nodes lines
      refine ⟨hTL, ?_, ?_, ?_, ?_, ?_, rfl, rfl, rfl, rfl⟩ <;>
        simp only [hA, totalValidLength] <;> ring

/-- Witness for C3: the single-vertical-line fixture. -/
theorem inertia_parallel_axis_divided_once_witness :
    vRes.totalLength = totalValidLength vNodes vLines ∧
    vRes.centroid.x =
      ((validSegments vNodes vLines).map segMidXTerm).sum / totalValidLength vNodes vLines ∧
    vRes.centroid.y =
      ((validSegments vNodes vLines).map segMidYTerm).sum / totalValidLength vNodes vLines ∧
    vRes.inertia.ixx = (((validSegments vNodes vLines).map segIxTerm).sum
        - totalValidLength vNodes vLines * vRes.centroid.y ^ 2) / 1000 ∧
    vRes.inertia.iyy = (((validSegments vNodes vLines).map segIyTerm).sum
        - totalValidLength vNodes vLines * vRes.centroid.x ^ 2) / 1000 ∧
    vRes.inertia.ixy = (((validSegments vNodes vLines).map segIxyTerm).sum
        - totalValidLength vNodes vLines * vRes.centroid.x * vRes.centroid.y) / 1000 ∧
    vRes.extremeDistances.cTop = maxYOf vNodes - vRes.centroid.y ∧
    vRes.extremeDistances.cBottom = vRes.centroid.y - minYOf vNodes ∧
    vRes.extremeDistances.cLeft = vRes.centroid.x - minXOf vNodes ∧
    vRes.extremeDistances.cRight = maxXOf vNodes - vRes.centroid.x :=
  inertia_parallel_axis_divided_once vNodes vLines vRes eval_vertical

/-- Nodes of the closed-rectangle fixture: (0,0), (100,0), (100,50), (0,50). -/
def rectNodes : List Node := [⟨1, 0, 0⟩, ⟨2, 100, 0⟩, ⟨3, 100, 50⟩, ⟨4, 0, 50⟩]

/-- The four boundary lines of the rectangle fixture. -/
def rectLines : List Line := [⟨1, 1, 2⟩, ⟨2, 2, 3⟩, ⟨3, 3, 4⟩, ⟨4, 4, 1⟩]

lemma resolve_rect1 :
    resolveLine rectNodes ⟨1, 1, 2⟩ = some (⟨1, 0, 0⟩, ⟨2, 100, 0⟩) := by
  norm_num [resolveLine, nodeMapGet, rectNodes]

lemma resolve_rect2 :
    resolveLine rectNodes ⟨2, 2, 3⟩ = some (⟨2, 100, 0⟩, ⟨3, 100, 50⟩) := by
  norm_num [resolveLine, nodeMapGet, rectNodes]

lemma resolve_rect3 :
    resolveLine rectNodes ⟨3, 3, 4⟩ = some (⟨3, 100, 50⟩, ⟨4, 0, 50⟩) := by
  norm_num [resolveLine, nodeMapGet, rectNodes]

lemma resolve_rect4 :
    resolveLine rectNodes ⟨4, 4, 1⟩ = some (⟨4, 0, 50⟩, ⟨1, 0, 0⟩) := by
  norm_num [resolveLine, nodeMapGet, rectNodes]

lemma runAcc_rect :
    runAcc rectNodes rectLines =
      ⟨300, 15000, 7500, 1000000 / 3, 3500000 / 3, 375000⟩ := by
  unfold runAcc rectLines
  rw [List.foldl_cons, List.foldl_cons, List.foldl_cons, List.foldl_cons,
    List.foldl_nil,
    stepLine_eval rectNodes Acc.init _ _ _ resolve_rect1 100
      (segLength_eval _ _ 100 (by norm_num) (by norm_num)) (by norm_num),
    stepLine_eval rectNodes _ _ _ _ resolve_rect2 50
      (segLength_eval _ _ 50 (by norm_num) (by norm_num)) (by norm_num),
    stepLine_eval rectNodes _ _ _ _ resolve_rect3 100
      (segLength_eval _ _ 100 (by norm_num) (by norm_num)) (by norm_num),
    stepLine_eval rectNodes _ _ _ _ resolve_rect4 50
      (segLength_eval _ _ 50 (by norm_num) (by norm_num)) (by norm_num)]
  unfold Acc.init
  norm_num

/-- The engine's output on the rectangle fixture. -/
noncomputable def rectRes : CalculationResults :=
  ⟨⟨50, 25⟩, ⟨875 / 6, 1250 / 3, 0⟩, 300, ⟨25, 25, 50, 50⟩⟩

lemma eval_rectangle : calculateWeldProperties rectNodes rectLines = some rectRes := by
  unfold calculateWeldProperties
  rw [if_neg (by norm_num [rectNodes, rectLines])]
  simp only [runAcc_rect]
  rw [if_neg (by norm_num)]
  unfold rectRes
  norm_num [minXOf, minYOf, maxXOf, maxYOf, rectNodes]

/-- C5: on the closed 100×50 rectangle with nodes (0,0), (100,0), (100,50),
(0,50) and its four boundary lines, the engine returns centroid (50, 25),
`Ixx = 50²·(3·100+50)/6 / 1000` (and `Iyy = 100²·(3·50+100)/6 / 1000`,
`Ixy = 0`, total length 300), and extreme distances
cTop = cBottom = 25, cLeft = cRight = 50. -/
theorem rectangle_fixture_result :
    calculateWeldProperties rectNodes rectLines =
      some ⟨⟨50, 25⟩,
            ⟨50 ^ 2 * (3 * 100 + 50) / 6 / 1000, 100 ^ 2 * (3 * 50 + 100) / 6 / 1000, 0⟩,
            300, ⟨25, 25, 50, 50⟩⟩ := by
  rw [eval_rectangle]
  unfold rectRes
  norm_num

lemma foldl_min_le_init : ∀ (l : List ℝ) (a : ℝ), l.foldl min a ≤ a
  | [], a => le_refl a
  | x :: l, a => le_trans (foldl_min_le_init l (min a x)) (min_le_left a x)

lemma foldl_min_le_mem : ∀ (l : List ℝ) (a x : ℝ), x ∈ l → l.foldl min a ≤ x
  | [], _, _, h => absurd h (List.not_mem_nil _)
  | y :: l, a, x, h => by
    rcases List.mem_cons.mp h with rfl | hx
    · exact le_trans (foldl_min_le_init l (min a x)) (min_le_right a x)
    · exact foldl_min_le_mem l (min a y) x hx

lemma foldl_min_attained : ∀ (l : List ℝ) (a : ℝ),
    l.foldl min a = a ∨ ∃ x ∈ l, l.foldl min a = x
  | [], a => Or.inl rfl
  | y :: l, a => by
    rw [List.foldl_cons]
    rcases foldl_min_attained l (min a y) with h | ⟨x, hx, he⟩
    · rcases min_cases a y with ⟨hm, _⟩ | ⟨hm, _⟩
      · exact Or.inl (by rw [h, hm])
      · exact Or.inr ⟨y, List.mem_cons_self y l, by rw [h, hm]⟩
    · exact Or.inr ⟨x, List.mem_cons_of_mem _ hx, he⟩

lemma foldl_max_init_le : ∀ (l : List ℝ) (a : ℝ), a ≤ l.foldl max a
  | [], a => le_refl a
  | x :: l, a => le_trans (le_max_left a x) (foldl_max_init_le l (max a x))

lemma foldl_max_mem_le : ∀ (l : List ℝ) (a x : ℝ), x ∈ l → x ≤ l.foldl max a
  | [], _, _, h => absurd h (List.not_mem_nil _)
  | y :: l, a, x, h => by
    rcases List.mem_cons.mp h with rfl | hx
    · exact le_trans (le_max_right a x) (foldl_max_init_le l (max a x))
    · exact foldl_max_mem_le l (max a y) x hx

lemma foldl_max_attained : ∀ (l : List ℝ) (a : ℝ),
    l.foldl max a = a ∨ ∃ x ∈ l, l.foldl max a = x
  | [], a => Or.inl rfl
  | y :: l, a => by
    rw [List.foldl_cons]
    rcases foldl_max_attained l (max a y) with h | ⟨x, hx, he⟩
    · rcases max_cases a y with ⟨hm, _⟩ | ⟨hm, _⟩
      · exact Or.inl (by rw [h, hm])
      · exact Or.inr ⟨y, List.mem_cons_self y l, by rw [h, hm]⟩
    · exact Or.inr ⟨x, List.mem_cons_of_mem _ hx, he⟩

lemma minXOf_eq_foldl (n : Node) (ns : List Node) :
    minXOf (n :: ns) = (ns.map Node.x).foldl min n.x := by
  simp [minXOf, List.foldl_map]

lemma minYOf_eq_foldl (n : Node) (ns : List Node) :
    minYOf (n :: ns) = (ns.map Node.y).foldl min n.y := by
  simp [minYOf, List.foldl_map]

lemma maxXOf_eq_foldl (n : Node) (ns : List Node) :
    maxXOf (n :: ns) = (ns.map Node.x).foldl max n.x := by
  simp [maxXOf, List.foldl_map]

lemma maxYOf_eq_foldl (n : Node) (ns : List Node) :
    maxYOf (n :: ns) = (ns.map Node.y).foldl max n.y := by
  simp [maxYOf, List.foldl_map]

lemma minXOf_le (nodes : List Node) (n : Node) (h : n ∈ nodes) :
    minXOf nodes ≤ n.x := by
  cases nodes with
  | nil => cases h
  | cons m ms =>
    rw [minXOf_eq_foldl]
    rcases List.mem_cons.mp h with rfl | hm
    · exact foldl_min_le_init _ _
    · exact foldl_min_le_mem _ _ _ (List.mem_map_of_mem Node.x hm)

lemma minYOf_le (nodes : List Node) (n : Node) (h : n ∈ nodes) :
    minYOf nodes ≤ n.y := by
  cases nodes with
  | nil => cases h
  | cons m ms =>
    rw [minYOf_eq_foldl]
    rcases List.mem_cons.mp h with rfl | hm
    · exact foldl_min_le_init _ _
    · exact foldl_min_le_mem _ _ _ (List.mem_map_of_mem Node.y hm)

lemma le_maxXOf (nodes : List Node) (n : Node) (h : n ∈ nodes) :
    n.x ≤ maxXOf nodes := by
  cases nodes with
  | nil => cases h
  | cons m ms =>
    rw [maxXOf_eq_foldl]
    rcases List.mem_cons.mp h with rfl | hm
    · exact foldl_max_init_le _ _
    · exact foldl_max_mem_le _ _ _ (List.mem_map_of_mem Node.x hm)

lemma le_maxYOf (nodes : List Node) (n : Node) (h : n ∈ nodes) :
    n.y ≤ maxYOf nodes := by
  cases nodes with
  | nil => cases h
  | cons m ms =>
    rw [maxYOf_eq_foldl]
    rcases List.mem_cons.mp h with rfl | hm
    · exact foldl_max_init_le _ _
    · exact foldl_max_mem_le _ _ _ (List.mem_map_of_mem Node.y hm)

lemma minXOf_attained (n : Node) (ns : List Node) :
    ∃ m ∈ n :: ns, m.x = minXOf (n :: ns) := by
  rw [minXOf_eq_foldl]
  rcases foldl_min_attained (ns.map Node.x) n.x with h | ⟨x, hx, he⟩
  · exact ⟨n, List.mem_cons_self n ns, h.symm⟩
  · obtain ⟨m, hm, rfl⟩ := List.mem_map.mp hx
    exact ⟨m, List.mem_cons_of_mem _ hm, he.symm⟩

lemma minYOf_attained (n : Node) (ns : List Node) :
    ∃ m ∈ n :: ns, m.y = minYOf (n :: ns) := by
  rw [minYOf_eq_foldl]
  rcases foldl_min_attained (ns.map Node.y) n.y with h | ⟨x, hx, he⟩
  · exact ⟨n, List.mem_cons_self n ns, h.symm⟩
  · obtain ⟨m, hm, rfl⟩ := List.mem_map.mp hx
    exact ⟨m, List.mem_cons_of_mem _ hm, he.symm⟩

lemma maxXOf_attained (n : Node) (ns : List Node) :
    ∃ m ∈ n :: ns, m.x = maxXOf (n :: ns) := by
  rw [maxXOf_eq_foldl]
  rcases foldl_max_attained (ns.map Node.x) n.x with h | ⟨x, hx, he⟩
  · exact ⟨n, List.mem_cons_self n ns, h.symm⟩
  · obtain ⟨m, hm, rfl⟩ := List.mem_map.mp hx
    exact ⟨m, List.mem_cons_of_mem _ hm, he.symm⟩

lemma maxYOf_attained (n : Node) (ns : List Node) :
    ∃ m ∈ n :: ns, m.y = maxYOf (n :: ns) := by
  rw [maxYOf_eq_foldl]
  rcases foldl_max_attained (ns.map Node.y) n.y with h | ⟨x, hx, he⟩
  · exact ⟨n, List.mem_cons_self n ns, h.symm⟩
  · obtain ⟨m, hm, rfl⟩ := List.mem_map.mp hx
    exact ⟨m, List.mem_cons_of_mem _ hm, he.symm⟩

/-- C6: whenever the engine returns a result, the extreme distances come
from the axis-aligned bounding box over every node of the input — also
nodes on no valid line — as cTop = maxY − ȳ, cBottom = ȳ − minY,
cLeft = x̄ − minX, cRight = maxX − x̄, where the box bounds are genuine
min/max over the whole node set (bounding and attained). -/
theorem extremes_from_bounding_box
    (nodes : List Node) (lines : List Line) (r : CalculationResults)
    (h : calculateWeldProperties nodes lines = some r) :
    (r.extremeDistances.cTop = maxYOf nodes - r.centroid.y ∧
     r.extremeDistances.cBottom = r.centroid.y - minYOf nodes ∧
     r.extremeDistances.cLeft = r.centroid.x - minXOf nodes ∧
     r.extremeDistances.cRight = maxXOf nodes - r.centroid.x) ∧
    (∀ n ∈ nodes, minXOf nodes ≤ n.x ∧ n.x ≤ maxXOf nodes ∧
       minYOf nodes ≤ n.y ∧ n.y ≤ maxYOf nodes) ∧
    ((∃ n ∈ nodes, n.x = minXOf nodes) ∧ (∃ n ∈ nodes, n.x = maxXOf nodes) ∧
     (∃ n ∈ nodes, n.y = minYOf nodes) ∧ (∃ n ∈ nodes, n.y = maxYOf nodes)) := by
  have hnodes : nodes ≠ [] := by
    intro hn
    rw [hn] at h
    simp [calculateWeldProperties] at h
  refine ⟨?_, ?_, ?_⟩
  · simp only [calculateWeldProperties] at h
    by_cases hg : (lines.isEmpty || nodes.isEmpty) = true
    · rw [if_pos hg] at h; cases h
    · rw [if_neg hg] at h
      by_cases h0 : (runAcc nodes lines).totalLength = 0
      · rw [if_pos h0] at h; cases h
      · rw [if_neg h0] at h
        injection h with h
        subst h
        exact ⟨rfl, rfl, rfl, rfl⟩
  · intro n hn
    exact ⟨minXOf_le nodes n hn, le_maxXOf nodes n hn,
      minYOf_le nodes n hn, le_maxYOf nodes n hn⟩
  · cases nodes with
    | nil => exact absurd rfl hnodes
    | cons m ms =>
      exact ⟨minXOf_attained m ms, maxXOf_attained m ms,
        minYOf_attained m ms, maxYOf_attained m ms⟩

/-- Witness for C6: the single-vertical-line fixture. -/
theorem extremes_from_bounding_box_witness :
    (vRes.extremeDistances.cTop = maxYOf vNodes - vRes.centroid.y ∧
     vRes.extremeDistances.cBottom = vRes.centroid.y - minYOf vNodes ∧
     vRes.extremeDistances.cLeft = vRes.centroid.x - minXOf vNodes ∧
     vRes.extremeDistances.cRight = maxXOf vNodes - vRes.centroid.x) ∧
    (∀ n ∈ vNodes, minXOf vNodes ≤ n.x ∧ n.x ≤ maxXOf vNodes ∧
       minYOf vNodes ≤ n.y ∧ n.y ≤ maxYOf vNodes) ∧
    ((∃ n ∈ vNodes, n.x = minXOf vNodes) ∧ (∃ n ∈ vNodes, n.x = maxXOf vNodes) ∧
     (∃ n ∈ vNodes, n.y = minYOf vNodes) ∧ (∃ n ∈ vNodes, n.y = maxYOf vNodes)) :=
  extremes_from_bounding_box vNodes vLines vRes eval_vertical

lemma foldl_nodeMapGet_mem :
    ∀ (nodes : List Node) (i : ℤ) (acc : Option Node) (n : Node),
      nodes.foldl (fun a k => if k.id = i then some k else a) acc = some n →
      n ∈ nodes ∨ acc = some n
  | [], _, _, _, h => Or.inr h
  | k :: ks, i, acc, n, h => by
    rw [List.foldl_cons] at h
    rcases foldl_nodeMapGet_mem ks i _ n h with hm | he
    · exact Or.inl (List.mem_cons_of_mem _ hm)
    · by_cases hk : k.id = i
      · rw [if_pos hk] at he
        injection he with he
        exact Or.inl (he ▸ List.mem_cons_self _ _)
      · rw [if_neg hk] at he
        exact Or.inr he

lemma nodeMapGet_mem (nodes : List Node) (i : ℤ) (n : Node)
    (h : nodeMapGet nodes i = some n) : n ∈ nodes := by
  rcases foldl_nodeMapGet_mem nodes i none n h with hm | he
  · exact hm
  · cases he

lemma resolveLine_mem (nodes : List Node) (l : Line) (s e : Node)
    (h : resolveLine nodes l = some (s, e)) : s ∈ nodes ∧ e ∈ nodes := by
  unfold resolveLine at h
  cases hs : nodeMapGet nodes l.startNodeId with
  | none => rw [hs] at h; cases h
  | some a =>
    cases he : nodeMapGet nodes l.endNodeId with
    | none => rw [hs, he] at h; cases h
    | some b =>
      rw [hs, he] at h
      simp only [Option.some.injEq, Prod.mk.injEq] at h
      obtain ⟨rfl, rfl⟩ := h
      exact ⟨nodeMapGet_mem nodes _ _ hs, nodeMapGet_mem nodes _ _ he⟩

/-- Loop invariant: the running total length is nonnegative and the running
length-weighted coordinate sums stay within the node set's bounding box
scaled by the total length. -/
lemma foldl_centroid_bounds (nodes : List Node) :
    ∀ (lines : List Line) (acc : Acc),
      (0 ≤ acc.totalLength ∧
       minXOf nodes * acc.totalLength ≤ acc.sumLx ∧
       acc.sumLx ≤ maxXOf nodes * acc.totalLength ∧
       minYOf nodes * acc.totalLength ≤ acc.sumLy ∧
       acc.sumLy ≤ maxYOf nodes * acc.totalLength) →
      (0 ≤ (lines.foldl (stepLine nodes) acc).totalLength ∧
       minXOf nodes * (lines.foldl (stepLine nodes) acc).totalLength ≤
         (lines.foldl (stepLine nodes) acc).sumLx ∧
       (lines.foldl (stepLine nodes) acc).sumLx ≤
         maxXOf nodes * (lines.foldl (stepLine nodes) acc).totalLength ∧
       minYOf nodes * (lines.foldl (stepLine nodes) acc).totalLength ≤
         (lines.foldl (stepLine nodes) acc).sumLy ∧
       (lines.foldl (stepLine nodes) acc).sumLy ≤
         maxYOf nodes * (lines.foldl (stepLine nodes) acc).totalLength)
  | [], acc, h => h
  | l :: ls, acc, h => by
    rw [List.foldl_cons]
    apply foldl_centroid_bounds nodes ls
    rw [stepLine_eq]
    split
    · exact h
    · rename_i p hr
      split
      · exact h
      · rename_i h0
        obtain ⟨hs, he⟩ := resolveLine_mem nodes l p.1 p.2 hr
        have hL : 0 ≤ segLength p.1 p.2 := Real.sqrt_nonneg _
        obtain ⟨h1, h2, h3, h4, h5⟩ := h
        have hx1 := minXOf_le nodes p.1 hs
        have hx2 := minXOf_le nodes p.2 he
        have hx3 := le_maxXOf nodes p.1 hs
        have hx4 := le_maxXOf nodes p.2 he
        have hy1 := minYOf_le nodes p.1 hs
        have hy2 := minYOf_le nodes p.2 he
        have hy3 := le_maxYOf nodes p.1 hs
        have hy4 := le_maxYOf nodes p.2 he
        unfold segMidXTerm segMidYTerm
        refine ⟨by simp only; linarith, ?_, ?_, ?_, ?_⟩ <;> simp only
        · have := mul_le_mul_of_nonneg_left
            (show minXOf nodes ≤ (p.1.x + p.2.x) / 2 by linarith) hL
          linarith
        · have := mul_le_mul_of_nonneg_left
            (show (p.1.x + p.2.x) / 2 ≤ maxXOf nodes by linarith) hL
          linarith
        · have := mul_le_mul_of_nonneg_left
            (show minYOf nodes ≤ (p.1.y + p.2.y) / 2 by linarith) hL
          linarith
        · have := mul_le_mul_of_nonneg_left
            (show (p.1.y + p.2.y) / 2 ≤ maxYOf nodes by linarith) hL
          linarith

/-- C10: whenever the engine returns a result, all four extreme distances
are nonnegative — the centroid, a length-weighted average of midpoints of
segments whose endpoints are nodes of the input, lies inside or on the
bounding box of the full node set. -/
theorem extreme_distances_nonneg
    (nodes : List Node) (lines : List Line) (r : CalculationResults)
    (h : calculateWeldProperties nodes lines = some r) :
    0 ≤ r.extremeDistances.cTop ∧ 0 ≤ r.extremeDistances.cBottom ∧
    0 ≤ r.extremeDistances.cLeft ∧ 0 ≤ r.extremeDistances.cRight := by
  simp only [calculateWeldProperties] at h
  by_cases hg : (lines.isEmpty || nodes.isEmpty) = true
  · rw [if_pos hg] at h; cases h
  · rw [if_neg hg] at h
    by_cases h0 : (runAcc nodes lines).totalLength = 0
    · rw [if_pos h0] at h; cases h
    · rw [if_neg h0] at h
      injection h with h
      subst h
      have hb := foldl_centroid_bounds nodes lines Acc.init
        (by unfold Acc.init; norm_num)
      rw [show lines.foldl (stepLine nodes) Acc.init = runAcc nodes lines from rfl]
        at hb
      obtain ⟨h1, h2, h3, h4, h5⟩ := hb
      have hpos : 0 < (runAcc nodes lines).totalLength := lt_of_le_of_ne h1 (Ne.symm h0)
      have hcx1 : minXOf nodes ≤ (runAcc nodes lines).sumLx / (runAcc nodes lines).totalLength :=
        (le_div_iff₀ hpos).mpr h2
      have hcx2 : (runAcc nodes lines).sumLx / (runAcc nodes lines).totalLength ≤ maxXOf nodes :=
        (div_le_iff₀ hpos).mpr h3
      have hcy1 : minYOf nodes ≤ (runAcc nodes lines).sumLy / (runAcc nodes lines).totalLength :=
        (le_div_iff₀ hpos).mpr h4
      have hcy2 : (runAcc nodes lines).sumLy / (runAcc nodes lines).totalLength ≤ maxYOf nodes :=
        (div_le_iff₀ hpos).mpr h5
      exact ⟨by simp only; linarith, by simp only; linarith,
        by simp only; linarith, by simp only; linarith⟩

/-- Witness for C10: the single-vertical-line fixture. -/
theorem extreme_distances_nonneg_witness :
    0 ≤ vRes.extremeDistances.cTop ∧ 0 ≤ vRes.extremeDistances.cBottom ∧
    0 ≤ vRes.extremeDistances.cLeft ∧ 0 ≤ vRes.extremeDistances.cRight :=
  extreme_distances_nonneg vNodes vLines vRes eval_vertical

/-- Validity of a line for the calculation: both endpoint ids resolve and
the resolved endpoints are not coincident (nonzero length). -/
noncomputable def lineIsValid (nodes : List Node) (l : Line) : Bool :=
  match resolveLine nodes l with
  | none => false
  | some p => decide (segLength p.1 p.2 ≠ 0)

/-- The line collection with every dangling or zero-length line removed. -/
noncomputable def keepValidLines (nodes : List Node) (lines : List Line) : List Line :=
  lines.filter (lineIsValid nodes)

lemma stepLine_invalid (nodes : List Node) (acc : Acc) (l : Line)
    (h : lineIsValid nodes l = false) : stepLine nodes acc l = acc := by
  rw [stepLine_eq]
  unfold lineIsValid at h
  cases hr : resolveLine nodes l with
  | none => rfl
  | some p =>
    rw [hr] at h
    simp only [decide_eq_false_iff_not, not_not] at h
    exact if_pos h

lemma foldl_stepLine_filter (nodes : List Node) :
    ∀ (lines : List Line) (acc : Acc),
      (lines.filter (lineIsValid nodes)).foldl (stepLine nodes) acc =
        lines.foldl (stepLine nodes) acc
  | [], _ => rfl
  | l :: ls, acc => by
    rw [List.filter_cons]
    by_cases h : lineIsValid nodes l = true
    · rw [if_pos h, List.foldl_cons, List.foldl_cons, foldl_stepLine_filter nodes ls]
    · have hf : lineIsValid nodes l = false := by
        cases hb : lineIsValid nodes l
        · rfl
        · exact absurd hb h
      rw [if_neg h, List.foldl_cons, stepLine_invalid nodes acc l hf,
        foldl_stepLine_filter nodes ls]

/-- C7: removing every dangling (unresolvable endpoint id) or zero-length
(coincident resolved endpoints) line from the collection leaves the
engine's output unchanged — such lines contribute nothing and never raise
an error. -/
theorem invalid_lines_removable (nodes : List Node) (lines : List Line) :
    calculateWeldProperties nodes (keepValidLines nodes lines) =
      calculateWeldProperties nodes lines := by
  have hrun : runAcc nodes (keepValidLines nodes lines) = runAcc nodes lines := by
    unfold runAcc keepValidLines
    exact foldl_stepLine_filter nodes lines Acc.init
  by_cases hnodes : nodes.isEmpty = true
  · simp [calculateWeldProperties, hnodes]
  · by_cases hlines : lines.isEmpty = true
    · have : lines = [] := List.isEmpty_iff.mp hlines
      subst this
      rfl
    · by_cases hfe : (keepValidLines nodes lines).isEmpty = true
      · have hkv : keepValidLines nodes lines = [] := List.isEmpty_iff.mp hfe
        have h0 : (runAcc nodes lines).totalLength = 0 := by
          rw [← hrun, hkv]; rfl
        simp [calculateWeldProperties, hfe, hlines, hnodes, h0]
      · simp [calculateWeldProperties, hrun, hfe, hnodes, hlines]

/-- Translation of a node by a constant vector (the id is kept). -/
def translateNode (dx dy : ℝ) (n : Node) : Node := ⟨n.id, n.x + dx, n.y + dy⟩

lemma foldl_nodeMapGet_translate (dx dy : ℝ) :
    ∀ (nodes : List Node) (i : ℤ) (acc : Option Node),
      (nodes.map (translateNode dx dy)).foldl
          (fun a k => if k.id = i then some k else a)
          (acc.map (translateNode dx dy)) =
        (nodes.foldl (fun a k => if k.id = i then some k else a) acc).map
          (translateNode dx dy)
  | [], _, _ => rfl
  | n :: ns, i, acc => by
    rw [List.map_cons, List.foldl_cons, List.foldl_cons]
    simp only [translateNode]
    by_cases h : n.id = i
    · rw [if_pos h, if_pos h]
      exact foldl_nodeMapGet_translate dx dy ns i (some n)
    · rw [if_neg h, if_neg h]
      exact foldl_nodeMapGet_translate dx dy ns i acc

lemma nodeMapGet_translate (dx dy : ℝ) (nodes : List Node) (i : ℤ) :
    nodeMapGet (nodes.map (translateNode dx dy)) i =
      (nodeMapGet nodes i).map (translateNode dx dy) :=
  foldl_nodeMapGet_translate dx dy nodes i none

lemma resolveLine_translate (dx dy : ℝ) (nodes : List Node) (l : Line) :
    resolveLine (nodes.map (translateNode dx dy)) l =
      (resolveLine nodes l).map
        (fun p => (translateNode dx dy p.1, translateNode dx dy p.2)) := by
  unfold resolveLine
  rw [nodeMapGet_translate, nodeMapGet_translate]
  cases nodeMapGet nodes l.startNodeId <;> cases nodeMapGet nodes l.endNodeId <;> rfl

lemma segLength_translate (dx dy : ℝ) (s e : Node) :
    segLength (translateNode dx dy s) (translateNode dx dy e) = segLength s e := by
  unfold segLength translateNode
  simp only
  congr 1
  ring

/-- How the loop accumulator transforms under a translation of the nodes
by `(dx, dy)`: lengths are unchanged, the first moments shift linearly and
the origin second moments shift by the parallel-axis cross terms. -/
def accShift (dx dy : ℝ) (a : Acc) : Acc :=
  ⟨a.totalLength,
   a.sumLx + dx * a.totalLength,
   a.sumLy + dy * a.totalLength,
   a.inertiaOx + 2 * dy * a.sumLy + dy * dy * a.totalLength,
   a.inertiaOy + 2 * dx * a.sumLx + dx * dx * a.totalLength,
   a.inertiaOxy + dy * a.sumLx + dx * a.sumLy + dx * dy * a.totalLength⟩

lemma resolveLine_eq_some (nodes : List Node) (l : Line) (s e : Node)
    (h : resolveLine nodes l = some (s, e)) :
    nodeMapGet nodes l.startNodeId = some s ∧
      nodeMapGet nodes l.endNodeId = some e := by
  unfold resolveLine at h
  cases hs : nodeMapGet nodes l.startNodeId with
  | none => rw [hs] at h; cases h
  | some a =>
    cases he : nodeMapGet nodes l.endNodeId with
    | none => rw [hs, he] at h; cases h
    | some b =>
      rw [hs, he] at h
      simp only [Option.some.injEq, Prod.mk.injEq] at h
      obtain ⟨h1, h2⟩ := h
      subst h1
      subst h2
      exact ⟨rfl, rfl⟩

lemma stepLine_unresolved (nodes : List Node) (acc : Acc) (l : Line)
    (h : resolveLine nodes l = none) : stepLine nodes acc l = acc := by
  unfold resolveLine at h
  unfold stepLine
  cases hs : nodeMapGet nodes l.startNodeId with
  | none => rfl
  | some s =>
    cases he : nodeMapGet nodes l.endNodeId with
    | none => rfl
    | some e => rw [hs, he] at h; cases h

/-- One loop iteration when both endpoints resolve, covering the zero and
nonzero length branches at once. -/
lemma stepLine_resolved (nodes : List Node) (acc : Acc) (l : Line) (s e : Node)
    (hs : nodeMapGet nodes l.startNodeId = some s)
    (he : nodeMapGet nodes l.endNodeId = some e) :
    stepLine nodes acc l =
      if segLength s e = 0 then acc
      else
        { totalLength := acc.totalLength + segLength s e
          sumLx := acc.sumLx + segLength s e * ((s.x + e.x) / 2)
          sumLy := acc.sumLy + segLength s e * ((s.y + e.y) / 2)
          inertiaOx := acc.inertiaOx +
            (s.y * s.y + s.y * e.y + e.y * e.y) * segLength s e / 3
          inertiaOy := acc.inertiaOy +
            (s.x * s.x + s.x * e.x + e.x * e.x) * segLength s e / 3
          inertiaOxy := acc.inertiaOxy +
            (s.x * s.y + e.x * e.y + (s.x * e.y + e.x * s.y) / 2) *
              segLength s e / 3 } := by
  unfold stepLine segLength
  rw [hs, he]

lemma stepLine_translate (dx dy : ℝ) (nodes : List Node) (acc : Acc) (l : Line) :
    stepLine (nodes.map (translateNode dx dy)) (accShift dx dy acc) l =
      accShift dx dy (stepLine nodes acc l) := by
  cases hr : resolveLine nodes l with
  | none =>
    have hr' : resolveLine (nodes.map (translateNode dx dy)) l = none := by
      rw [resolveLine_translate, hr]; rfl
    rw [stepLine_unresolved _ _ _ hr', stepLine_unresolved _ _ _ hr]
  | some p =>
    obtain ⟨s, e⟩ := p
    obtain ⟨hs, he⟩ := resolveLine_eq_some nodes l s e hr
    have hs' : nodeMapGet (nodes.map (translateNode dx dy)) l.startNodeId =
        some (translateNode dx dy s) := by
      rw [nodeMapGet_translate, hs]; rfl
    have he' : nodeMapGet (nodes.map (translateNode dx dy)) l.endNodeId =
        some (translateNode dx dy e) := by
      rw [nodeMapGet_translate, he]; rfl
    rw [stepLine_resolved _ _ _ _ _ hs' he', stepLine_resolved _ _ _ _ _ hs he,
      segLength_translate]
    by_cases h0 : segLength s e = 0
    · rw [if_pos h0, if_pos h0]
    · rw [if_neg h0, if_neg h0]
      simp only [accShift, translateNode, Acc.mk.injEq]
      refine ⟨by ring, by ring, by ring, by ring, by ring, by ring⟩

lemma foldl_stepLine_translate (dx dy : ℝ) (nodes : List Node) :
    ∀ (lines : List Line) (acc : Acc),
      lines.foldl (stepLine (nodes.map (translateNode dx dy))) (accShift dx dy acc) =
        accShift dx dy (lines.foldl (stepLine nodes) acc)
  | [], _ => rfl
  | l :: ls, acc => by
    rw [List.foldl_cons, List.foldl_cons, stepLine_translate,
      foldl_stepLine_translate dx dy nodes ls]

lemma accShift_init (dx dy : ℝ) : accShift dx dy Acc.init = Acc.init := by
  unfold accShift Acc.init
  norm_num

lemma runAcc_translate (dx dy : ℝ) (nodes : List Node) (lines : List Line) :
    runAcc (nodes.map (translateNode dx dy)) lines =
      accShift dx dy (runAcc nodes lines) := by
  have h := foldl_stepLine_translate dx dy nodes lines Acc.init
  rw [accShift_init] at h
  exact h

lemma foldl_min_add (c : ℝ) : ∀ (l : List ℝ) (a : ℝ),
    (l.map (· + c)).foldl min (a + c) = l.foldl min a + c
  | [], _ => rfl
  | x :: l, a => by
    rw [List.map_cons, List.foldl_cons, List.foldl_cons, min_add_add_right,
      foldl_min_add c l (min a x)]

lemma foldl_max_add (c : ℝ) : ∀ (l : List ℝ) (a : ℝ),
    (l.map (· + c)).foldl max (a + c) = l.foldl max a + c
  | [], _ => rfl
  | x :: l, a => by
    rw [List.map_cons, List.foldl_cons, List.foldl_cons, max_add_add_right,
      foldl_max_add c l (max a x)]

lemma minXOf_translate (dx dy : ℝ) (n : Node) (ns : List Node) :
    minXOf ((n :: ns).map (translateNode dx dy)) = minXOf (n :: ns) + dx := by
  rw [List.map_cons, minXOf_eq_foldl, minXOf_eq_foldl, List.map_map]
  have : (Node.x ∘ translateNode dx dy) = fun k => k.x + dx := rfl
  rw [this, show (translateNode dx dy n).x = n.x + dx from rfl,
    show (ns.map fun k => k.x + dx) = (ns.map Node.x).map (· + dx) by
      rw [List.map_map]; rfl]
  exact foldl_min_add dx (ns.map Node.x) n.x

lemma minYOf_translate (dx dy : ℝ) (n : Node) (ns : List Node) :
    minYOf ((n :: ns).map (translateNode dx dy)) = minYOf (n :: ns) + dy := by
  rw [List.map_cons, minYOf_eq_foldl, minYOf_eq_foldl, List.map_map]
  have : (Node.y ∘ translateNode dx dy) = fun k => k.y + dy := rfl
  rw [this, show (translateNode dx dy n).y = n.y + dy from rfl,
    show (ns.map fun k => k.y + dy) = (ns.map Node.y).map (· + dy) by
      rw [List.map_map]; rfl]
  exact foldl_min_add dy (ns.map Node.y) n.y

lemma maxXOf_translate (dx dy : ℝ) (n : Node) (ns : List Node) :
    maxXOf ((n :: ns).map (translateNode dx dy)) = maxXOf (n :: ns) + dx := by
  rw [List.map_cons, maxXOf_eq_foldl, maxXOf_eq_foldl, List.map_map]
  have : (Node.x ∘ translateNode dx dy) = fun k => k.x + dx := rfl
  rw [this, show (translateNode dx dy n).x = n.x + dx from rfl,
    show (ns.map fun k => k.x + dx) = (ns.map Node.x).map (· + dx) by
      rw [List.map_map]; rfl]
  exact foldl_max_add dx (ns.map Node.x) n.x

lemma maxYOf_translate (dx dy : ℝ) (n : Node) (ns : List Node) :
    maxYOf ((n :: ns).map (translateNode dx dy)) = maxYOf (n :: ns) + dy := by
  rw [List.map_cons, maxYOf_eq_foldl, maxYOf_eq_foldl, List.map_map]
  have : (Node.y ∘ translateNode dx dy) = fun k => k.y + dy := rfl
  rw [this, show (translateNode dx dy n).y = n.y + dy from rfl,
    show (ns.map fun k => k.y + dy) = (ns.map Node.y).map (· + dy) by
      rw [List.map_map]; rfl]
  exact foldl_max_add dy (ns.map Node.y) n.y

/-- C8: translating every node by a constant vector `(dx, dy)` keeps the
engine returning a result with the same Ixx, Iyy, Ixy, a centroid shifted
by exactly `(dx, dy)`, and unchanged extreme distances and total length. -/
theorem translation_invariance
    (nodes : List Node) (lines : List Line) (dx dy : ℝ) (r : CalculationResults)
    (h : calculateWeldProperties nodes lines = some r) :
    ∃ r', calculateWeldProperties (nodes.map (translateNode dx dy)) lines = some r' ∧
      r'.inertia.ixx = r.inertia.ixx ∧ r'.inertia.iyy = r.inertia.iyy ∧
      r'.inertia.ixy = r.inertia.ixy ∧
      r'.centroid.x = r.centroid.x + dx ∧ r'.centroid.y = r.centroid.y + dy ∧
      r'.extremeDistances = r.extremeDistances ∧
      r'.totalLength = r.totalLength := by
  obtain ⟨n, ns, rfl⟩ : ∃ n ns, nodes = n :: ns := by
    cases nodes with
    | nil => simp [calculateWeldProperties] at h
    | cons n ns => exact ⟨n, ns, rfl⟩
  simp only [calculateWeldProperties] at h ⊢
  by_cases hg : (lines.isEmpty || (n :: ns).isEmpty) = true
  · rw [if_pos hg] at h; cases h
  · rw [if_neg hg] at h
    by_cases h0 : (runAcc (n :: ns) lines).totalLength = 0
    · rw [if_pos h0] at h; cases h
    · rw [if_neg h0] at h
      injection h with h
      subst h
      have hg' : ¬((lines.isEmpty || ((n :: ns).map (translateNode dx dy)).isEmpty)
          = true) := by
        simpa using hg
      rw [if_neg hg', runAcc_translate]
      rw [if_neg (show ¬((accShift dx dy (runAcc (n :: ns) lines)).totalLength = 0)
        from h0)]
      have hne : (runAcc (n :: ns) lines).totalLength ≠ 0 := h0
      refine ⟨_, rfl, ?_, ?_, ?_, ?_, ?_, ?_, rfl⟩
      · simp only [accShift]
        field_simp
        ring
      · simp only [accShift]
        field_simp
        ring
      · simp only [accShift]
        field_simp
        ring
      · simp only [accShift]
        field_simp
      · simp only [accShift]
        field_simp
      · simp only [accShift, ExtremeDistances.mk.injEq, minXOf_translate,
          maxXOf_translate, minYOf_translate, maxYOf_translate]
        refine ⟨?_, ?_, ?_, ?_⟩ <;> (field_simp; ring)

/-- Witness for C8: the vertical fixture translated by (3, 7). -/
theorem translation_invariance_witness :
    ∃ r', calculateWeldProperties (vNodes.map (translateNode 3 7)) vLines = some r' ∧
      r'.inertia.ixx = vRes.inertia.ixx ∧ r'.inertia.iyy = vRes.inertia.iyy ∧
      r'.inertia.ixy = vRes.inertia.ixy ∧
      r'.centroid.x = vRes.centroid.x + 3 ∧ r'.centroid.y = vRes.centroid.y + 7 ∧
      r'.extremeDistances = vRes.extremeDistances ∧
      r'.totalLength = vRes.totalLength :=
  translation_invariance vNodes vLines 3 7 vRes eval_vertical

/-- Nodes of the single-horizontal-line fixture. -/
def hNodes : List Node := [⟨1, 0, 0⟩, ⟨2, 100, 0⟩]

/-- The single line of the horizontal fixture. -/
def hLines : List Line := [⟨1, 1, 2⟩]

/-- The engine's output on the horizontal fixture. -/
noncomputable def hRes : CalculationResults :=
  ⟨⟨50, 0⟩, ⟨0, 250 / 3, 0⟩, 100, ⟨0, 0, 50, 50⟩⟩

lemma resolve_horizontal :
    resolveLine hNodes ⟨1, 1, 2⟩ = some (⟨1, 0, 0⟩, ⟨2, 100, 0⟩) := by
  norm_num [resolveLine, nodeMapGet, hNodes]

lemma runAcc_horizontal : runAcc hNodes hLines = ⟨100, 5000, 0, 0, 1000000 / 3, 0⟩ := by
  unfold runAcc hLines
  rw [List.foldl_cons, List.foldl_nil,
    stepLine_eval hNodes Acc.init _ _ _ resolve_horizontal 100
      (segLength_eval _ _ 100 (by norm_num) (by norm_num)) (by norm_num)]
  unfold Acc.init
  norm_num

lemma eval_horizontal : calculateWeldProperties hNodes hLines = some hRes := by
  unfold calculateWeldProperties
  rw [if_neg (by norm_num [hNodes, hLines])]
  simp only [runAcc_horizontal]
  rw [if_neg (by norm_num)]
  unfold hRes
  norm_num [minXOf, minYOf, maxXOf, maxYOf, hNodes]

/-- Nodes of the L-shape ("tee-joint") fixture. -/
def teeNodes : List Node := [⟨1, 0, 0⟩, ⟨2, 0, 100⟩, ⟨3, 100, 0⟩]

/-- Lines of the L-shape fixture. -/
def teeLines : List Line := [⟨1, 1, 2⟩, ⟨2, 1, 3⟩]

/-- The engine's output on the L-shape fixture. -/
noncomputable def teeRes : CalculationResults :=
  ⟨⟨25, 25⟩, ⟨625 / 3, 625 / 3, -125⟩, 200, ⟨75, 25, 25, 75⟩⟩

lemma resolve_tee1 :
    resolveLine teeNodes ⟨1, 1, 2⟩ = some (⟨1, 0, 0⟩, ⟨2, 0, 100⟩) := by
  norm_num [resolveLine, nodeMapGet, teeNodes]

lemma resolve_tee2 :
    resolveLine teeNodes ⟨2, 1, 3⟩ = some (⟨1, 0, 0⟩, ⟨3, 100, 0⟩) := by
  norm_num [resolveLine, nodeMapGet, teeNodes]

lemma runAcc_tee :
    runAcc teeNodes teeLines = ⟨200, 5000, 5000, 1000000 / 3, 1000000 / 3, 0⟩ := by
  unfold runAcc teeLines
  rw [List.foldl_cons, List.foldl_cons, List.foldl_nil,
    stepLine_eval teeNodes Acc.init _ _ _ resolve_tee1 100
      (segLength_eval _ _ 100 (by norm_num) (by norm_num)) (by norm_num),
    stepLine_eval teeNodes _ _ _ _ resolve_tee2 100
      (segLength_eval _ _ 100 (by norm_num) (by norm_num)) (by norm_num)]
  unfold Acc.init
  norm_num

lemma eval_tee : calculateWeldProperties teeNodes teeLines = some teeRes := by
  unfold calculateWeldProperties
  rw [if_neg (by norm_num [teeNodes, teeLines])]
  simp only [runAcc_tee]
  rw [if_neg (by norm_num)]
  unfold teeRes
  norm_num [minXOf, minYOf, maxXOf, maxYOf, teeNodes]

/-- Nodes of the two-vertical-lines fixture. -/
def tvNodes : List Node := [⟨1, 0, 0⟩, ⟨2, 0, 100⟩, ⟨3, 50, 0⟩, ⟨4, 50, 100⟩]

/-- Lines of the two-vertical-lines fixture. -/
def tvLines : List Line := [⟨1, 1, 2⟩, ⟨2, 3, 4⟩]

/-- The engine's output on the two-vertical-lines fixture. -/
noncomputable def tvRes : CalculationResults :=
  ⟨⟨25, 50⟩, ⟨500 / 3, 125, 0⟩, 200, ⟨50, 50, 25, 25⟩⟩

lemma resolve_tv1 :
    resolveLine tvNodes ⟨1, 1, 2⟩ = some (⟨1, 0, 0⟩, ⟨2, 0, 100⟩) := by
  norm_num [resolveLine, nodeMapGet, tvNodes]

lemma resolve_tv2 :
    resolveLine tvNodes ⟨2, 3, 4⟩ = some (⟨3, 50, 0⟩, ⟨4, 50, 100⟩) := by
  norm_num [resolveLine, nodeMapGet, tvNodes]

lemma runAcc_tv :
    runAcc tvNodes tvLines = ⟨200, 5000, 10000, 2000000 / 3, 250000, 250000⟩ := by
  unfold runAcc tvLines
  rw [List.foldl_cons, List.foldl_cons, List.foldl_nil,
    stepLine_eval tvNodes Acc.init _ _ _ resolve_tv1 100
      (segLength_eval _ _ 100 (by norm_num) (by norm_num)) (by norm_num),
    stepLine_eval tvNodes _ _ _ _ resolve_tv2 100
      (segLength_eval _ _ 100 (by norm_num) (by norm_num)) (by norm_num)]
  unfold Acc.init
  norm_num

lemma eval_tv : calculateWeldProperties tvNodes tvLines = some tvRes := by
  unfold calculateWeldProperties
  rw [if_neg (by norm_num [tvNodes, tvLines])]
  simp only [runAcc_tv]
  rw [if_neg (by norm_num)]
  unfold tvRes
  norm_num [minXOf, minYOf, maxXOf, maxYOf, tvNodes]

/-- Nodes of the two-horizontal-lines fixture. -/
def thNodes : List Node := [⟨1, 0, 0⟩, ⟨2, 100, 0⟩, ⟨3, 0, 50⟩, ⟨4, 100, 50⟩]

/-- Lines of the two-horizontal-lines fixture. -/
def thLines : List Line := [⟨1, 1, 2⟩, ⟨2, 3, 4⟩]

/-- The engine's output on the two-horizontal-lines fixture. -/
noncomputable def thRes : CalculationResults :=
  ⟨⟨50, 25⟩, ⟨125, 500 / 3, 0⟩, 200, ⟨25, 25, 50, 50⟩⟩

lemma resolve_th1 :
    resolveLine thNodes ⟨1, 1, 2⟩ = some (⟨1, 0, 0⟩, ⟨2, 100, 0⟩) := by
  norm_num [resolveLine, nodeMapGet, thNodes]

lemma resolve_th2 :
    resolveLine thNodes ⟨2, 3, 4⟩ = some (⟨3, 0, 50⟩, ⟨4, 100, 50⟩) := by
  norm_num [resolveLine, nodeMapGet, thNodes]

lemma runAcc_th :
    runAcc thNodes thLines = ⟨200, 10000, 5000, 250000, 2000000 / 3, 250000⟩ := by
  unfold runAcc thLines
  rw [List.foldl_cons, List.foldl_cons, List.foldl_nil,
    stepLine_eval thNodes Acc.init _ _ _ resolve_th1 100
      (segLength_eval _ _ 100 (by norm_num) (by norm_num)) (by norm_num),
    stepLine_eval thNodes _ _ _ _ resolve_th2 100
      (segLength_eval _ _ 100 (by norm_num) (by norm_num)) (by norm_num)]
  unfold Acc.init
  norm_num

lemma eval_th : calculateWeldProperties thNodes thLines = some thRes := by
  unfold calculateWeldProperties
  rw [if_neg (by norm_num [thNodes, thLines])]
  simp only [runAcc_th]
  rw [if_neg (by norm_num)]
  unfold thRes
  norm_num [minXOf, minYOf, maxXOf, maxYOf, thNodes]

/-- Nodes of the C-shape fixture. -/
def cNodes : List Node := [⟨1, 0, 0⟩, ⟨2, 50, 0⟩, ⟨3, 0, 100⟩, ⟨4, 50, 100⟩]

/-- Lines of the C-shape fixture: top flange, vertical spine, bottom
flange. -/
def cLines : List Line := [⟨1, 1, 2⟩, ⟨2, 1, 3⟩, ⟨3, 3, 4⟩]

/-- The engine's output on the C-shape fixture. -/
noncomputable def cRes : CalculationResults :=
  ⟨⟨25 / 2, 50⟩, ⟨1000 / 3, 625 / 12, 0⟩, 200, ⟨50, 50, 25 / 2, 75 / 2⟩⟩

lemma resolve_c1 :
    resolveLine cNodes ⟨1, 1, 2⟩ = some (⟨1, 0, 0⟩, ⟨2, 50, 0⟩) := by
  norm_num [resolveLine, nodeMapGet, cNodes]

lemma resolve_c2 :
    resolveLine cNodes ⟨2, 1, 3⟩ = some (⟨1, 0, 0⟩, ⟨3, 0, 100⟩) := by
  norm_num [resolveLine, nodeMapGet, cNodes]

lemma resolve_c3 :
    resolveLine cNodes ⟨3, 3, 4⟩ = some (⟨3, 0, 100⟩, ⟨4, 50, 100⟩) := by
  norm_num [resolveLine, nodeMapGet, cNodes]

lemma runAcc_c :
    runAcc cNodes cLines = ⟨200, 2500, 10000, 2500000 / 3, 250000 / 3, 125000⟩ := by
  unfold runAcc cLines
  rw [List.foldl_cons, List.foldl_cons, List.foldl_cons, List.foldl_nil,
    stepLine_eval cNodes Acc.init _ _ _ resolve_c1 50
      (segLength_eval _ _ 50 (by norm_num) (by norm_num)) (by norm_num),
    stepLine_eval cNodes _ _ _ _ resolve_c2 100
      (segLength_eval _ _ 100 (by norm_num) (by norm_num)) (by norm_num),
    stepLine_eval cNodes _ _ _ _ resolve_c3 50
      (segLength_eval _ _ 50 (by norm_num) (by norm_num)) (by norm_num)]
  unfold Acc.init
  norm_num

lemma eval_c : calculateWeldProperties cNodes cLines = some cRes := by
  unfold calculateWeldProperties
  rw [if_neg (by norm_num [cNodes, cLines])]
  simp only [runAcc_c]
  rw [if_neg (by norm_num)]
  unfold cRes
  norm_num [minXOf, minYOf, maxXOf, maxYOf, cNodes]

/-- A verification fixture of VerificationPage.tsx: its string id (the key
of the manual-formula dispatch), display title, and node/line sets.  The
description text and the SVG diagram are display-only and carry no data
used by the summary. -/
structure VerificationExample where
  exId : String
  title : String
  nodes : List Node
  lines : List Line

/-- The fixed fixture catalogue `verificationExamples`, in source order. -/
def verificationExamples : List VerificationExample :=
  [⟨"vertical-line", "Vertical Line Weld", vNodes, vLines⟩,
   ⟨"horizontal-line", "Horizontal Line Weld", hNodes, hLines⟩,
   ⟨"tee-joint", "L-Shape Weld", teeNodes, teeLines⟩,
   ⟨"two-vertical-lines", "Two Vertical Lines", tvNodes, tvLines⟩,
   ⟨"two-horizontal-lines", "Two Horizontal Lines", thNodes, thLines⟩,
   ⟨"c-shape", "C-Shape Weld", cNodes, cLines⟩,
   ⟨"rectangle", "Rectangular Weld", rectNodes, rectLines⟩]

/-- The numeric results of `performManualCalculations` for one fixture;
the label/formula/substitution display strings of the source are omitted,
only the `result` numbers are kept. -/
structure ManualResults where
  centroidX : ℝ
  centroidY : ℝ
  ixxManual : ℝ
  iyyManual : ℝ
  ixyManual : ℝ

/-- The manual closed-form evaluators of `performManualCalculations`,
keyed by fixture id exactly as the source's switch; ids outside the
catalogue correspond to the switch falling through (no entries), modelled
as zeros — that branch is never consumed. -/
noncomputable def performManualCalculations : String → ManualResults
  | "vertical-line" => ⟨0, 100 / 2, 100 ^ 3 / 12, 0, 0⟩
  | "horizontal-line" => ⟨100 / 2, 0, 0, 100 ^ 3 / 12, 0⟩
  | "tee-joint" =>
    let b : ℝ := 100
    let d : ℝ := 100
    let cX := b ^ 2 / (2 * (b + d))
    let cY := d ^ 2 / (2 * (b + d))
    ⟨cX, cY,
     (d ^ 3 / 12 + d * (d / 2 - cY) ^ 2) + (0 + b * (0 - cY) ^ 2),
     (0 + d * (0 - cX) ^ 2) + (b ^ 3 / 12 + b * (b / 2 - cX) ^ 2),
     (0 + d * (0 - cX) * (d / 2 - cY)) + (0 + b * (b / 2 - cX) * (0 - cY))⟩
  | "two-vertical-lines" =>
    ⟨50 / 2, 100 / 2, 100 ^ 3 / 6, 2 * (100 * (50 / 2) ^ 2), 0⟩
  | "two-horizontal-lines" =>
    ⟨100 / 2, 50 / 2, 100 * 50 ^ 2 / 2, 2 * (100 ^ 3 / 12), 0⟩
  | "c-shape" =>
    let b : ℝ := 50
    let d : ℝ := 100
    let cX := b ^ 2 / (2 * b + d)
    ⟨cX, d / 2, d ^ 2 * (d + 6 * b) / 12,
     (0 + d * (0 - cX) ^ 2) + 2 * (b ^ 3 / 12 + b * (b / 2 - cX) ^ 2), 0⟩
  | "rectangle" =>
    ⟨100 / 2, 50 / 2, 50 ^ 2 * (3 * 100 + 50) / 6, 100 ^ 2 * (3 * 50 + 100) / 6, 0⟩
  | _ => ⟨0, 0, 0, 0, 0⟩

/-- One row of the verification summary (`SummaryResult` of the source:
`{exampleTitle, property, appValue, manualValue, isMatch}`). -/
structure SummaryResult where
  exampleTitle : String
  property : String
  appValue : ℝ
  manualValue : ℝ
  isMatch : Bool

/-- The comparison tolerance of the source, `1e-9` (idealised exactly). -/
noncomputable def tolerance : ℝ := 1 / 1000000000

/-- The three summary rows one fixture contributes (the `useEffect` of
`VerificationPage`): Centroid X, Centroid Y and Ixx only, each compared at
the fixed tolerance, the manual Ixx divided by 1000 first; nothing is
pushed when the engine returns no result. -/
noncomputable def summaryFor (ex : VerificationExample) : List SummaryResult :=
  match calculateWeldProperties ex.nodes ex.lines with
  | none => []
  | some r =>
    let m := performManualCalculations ex.exId
    [⟨ex.title, "Centroid X (mm)", r.centroid.x, m.centroidX,
        decide (|r.centroid.x - m.centroidX| < tolerance)⟩,
     ⟨ex.title, "Centroid Y (mm)", r.centroid.y, m.centroidY,
        decide (|r.centroid.y - m.centroidY| < tolerance)⟩,
     ⟨ex.title, "Ixx (cm³)", r.inertia.ixx, m.ixxManual / 1000,
        decide (|r.inertia.ixx - m.ixxManual / 1000| < tolerance)⟩]

/-- The whole verification summary, fixtures in catalogue order. -/
noncomputable def summaryData : List SummaryResult :=
  verificationExamples.flatMap summaryFor

lemma summaryFor_pairs (ex : VerificationExample) (r : CalculationResults)
    (h : calculateWeldProperties ex.nodes ex.lines = some r) :
    (summaryFor ex).map (fun e => (e.exampleTitle, e.property)) =
      [(ex.title, "Centroid X (mm)"), (ex.title, "Centroid Y (mm)"),
       (ex.title, "Ixx (cm³)")] := by
  unfold summaryFor
  rw [h]
  rfl

/-- The summary's (title, property) pairs: three rows per fixture, for the
seven fixtures, and no Iyy or Ixy rows anywhere. -/
lemma summaryData_pairs :
    summaryData.map (fun e => (e.exampleTitle, e.property)) =
      [("Vertical Line Weld", "Centroid X (mm)"),
       ("Vertical Line Weld", "Centroid Y (mm)"),
       ("Vertical Line Weld", "Ixx (cm³)"),
       ("Horizontal Line Weld", "Centroid X (mm)"),
       ("Horizontal Line Weld", "Centroid Y (mm)"),
       ("Horizontal Line Weld", "Ixx (cm³)"),
       ("L-Shape Weld", "Centroid X (mm)"),
       ("L-Shape Weld", "Centroid Y (mm)"),
       ("L-Shape Weld", "Ixx (cm³)"),
       ("Two Vertical Lines", "Centroid X (mm)"),
       ("Two Vertical Lines", "Centroid Y (mm)"),
       ("Two Vertical Lines", "Ixx (cm³)"),
       ("Two Horizontal Lines", "Centroid X (mm)"),
       ("Two Horizontal Lines", "Centroid Y (mm)"),
       ("Two Horizontal Lines", "Ixx (cm³)"),
       ("C-Shape Weld", "Centroid X (mm)"),
       ("C-Shape Weld", "Centroid Y (mm)"),
       ("C-Shape Weld", "Ixx (cm³)"),
       ("Rectangular Weld", "Centroid X (mm)"),
       ("Rectangular Weld", "Centroid Y (mm)"),
       ("Rectangular Weld", "Ixx (cm³)")] := by
  unfold summaryData verificationExamples
  rw [List.map_flatMap]
  simp only [List.flatMap_cons, List.flatMap_nil, List.append_nil]
  rw [summaryFor_pairs _ _ eval_vertical, summaryFor_pairs _ _ eval_horizontal,
    summaryFor_pairs _ _ eval_tee, summaryFor_pairs _ _ eval_tv,
    summaryFor_pairs _ _ eval_th, summaryFor_pairs _ _ eval_c,
    summaryFor_pairs _ _ eval_rectangle]
  rfl

lemma summaryFor_isMatch (ex : VerificationExample) (e : SummaryResult)
    (he : e ∈ summaryFor ex) :
    e.isMatch = true ↔ |e.appValue - e.manualValue| < tolerance := by
  unfold summaryFor at he
  cases h : calculateWeldProperties ex.nodes ex.lines with
  | none => rw [h] at he; cases he
  | some r =>
    rw [h] at he
    simp only [List.mem_cons, List.not_mem_nil, or_false] at he
    rcases he with rfl | rfl | rfl <;> simp [decide_eq_true_eq]

/-- Counterexample to C4 as stated: the verification summary holds 21
entries — three per fixture — and no entry at all compares Iyy or Ixy,
while the claim asks for five comparison entries per fixture.  The
five-property comparison exists only in the per-fixture PDF report view,
not in the summary. -/
theorem verification_summary_counterexample :
    summaryData.length = 21 ∧
    (summaryData.map fun e => e.property).count "Iyy (cm³)" = 0 ∧
    (summaryData.map fun e => e.property).count "Ixy (cm³)" = 0 := by
  have hp := summaryData_pairs
  have hlen : summaryData.length = 21 := by
    have h := congrArg List.length hp
    simpa using h
  have hprop : (summaryData.map fun e => e.property) =
      (summaryData.map fun e => (e.exampleTitle, e.property)).map Prod.snd := by
    rw [List.map_map]
    rfl
  refine ⟨hlen, ?_, ?_⟩ <;> rw [hprop, hp] <;> rfl

/-- C4 (amended): for each of the seven fixtures the verification summary
contains a comparison entry for each of the three properties centroid-x,
centroid-y and Ixx — and none for Iyy or Ixy — and each entry's isMatch
flag is true iff the absolute difference between the engine value and the
manual value is below 1e-9 after unit normalisation (the manual Ixx, in
mm³, divided by 1000 before the comparison). -/
theorem verification_summary_three_properties :
    summaryData.map (fun e => (e.exampleTitle, e.property)) =
      [("Vertical Line Weld", "Centroid X (mm)"),
       ("Vertical Line Weld", "Centroid Y (mm)"),
       ("Vertical Line Weld", "Ixx (cm³)"),
       ("Horizontal Line Weld", "Centroid X (mm)"),
       ("Horizontal Line Weld", "Centroid Y (mm)"),
       ("Horizontal Line Weld", "Ixx (cm³)"),
       ("L-Shape Weld", "Centroid X (mm)"),
       ("L-Shape Weld", "Centroid Y (mm)"),
       ("L-Shape Weld", "Ixx (cm³)"),
       ("Two Vertical Lines", "Centroid X (mm)"),
       ("Two Vertical Lines", "Centroid Y (mm)"),
       ("Two Vertical Lines", "Ixx (cm³)"),
       ("Two Horizontal Lines", "Centroid X (mm)"),
       ("Two Horizontal Lines", "Centroid Y (mm)"),
       ("Two Horizontal Lines", "Ixx (cm³)"),
       ("C-Shape Weld", "Centroid X (mm)"),
       ("C-Shape Weld", "Centroid Y (mm)"),
       ("C-Shape Weld", "Ixx (cm³)"),
       ("Rectangular Weld", "Centroid X (mm)"),
       ("Rectangular Weld", "Centroid Y (mm)"),
       ("Rectangular Weld", "Ixx (cm³)")] ∧
    ∀ e ∈ summaryData,
      (e.isMatch = true ↔ |e.appValue - e.manualValue| < 1 / 1000000000) := by
  refine ⟨summaryData_pairs, ?_⟩
  intro e he
  unfold summaryData at he
  rw [List.mem_flatMap] at he
  obtain ⟨ex, _, hex⟩ := he
  exact summaryFor_isMatch ex e hex

end WeldCalc

namespace WeldApp

/-- Drawing mode of the editor (`DrawingMode` of types.ts). -/
inductive DrawMode
  | node
  | line
  deriving DecidableEq

/-- An editor node: id plus position.  The position type is abstract:
coordinates play no role in the duplicate-line logic, and the grid
snapping and two-decimal rounding of the source are coordinate
transformations folded into the clicked point the event carries. -/
structure ENode (α : Type) where
  id : ℕ
  pos : α
  deriving DecidableEq

/-- An editor line: id plus endpoint node ids. -/
structure ELine where
  id : ℕ
  startNodeId : ℕ
  endNodeId : ℕ
  deriving DecidableEq

/-- The selection state (`SelectedElement` of types.ts). -/
inductive Selected
  | node (id : ℕ)
  | line (id : ℕ)
  deriving DecidableEq

/-- The App.tsx state the node/line handlers touch.  `Date.now()` id
generation is modelled by the strictly increasing counter `nextId`: a
fresh id never collides with a live one. -/
structure EditorState (α : Type) where
  nodes : List (ENode α)
  lines : List ELine
  drawingMode : DrawMode
  lineStartNodeId : Option ℕ
  selected : Option Selected
  nextId : ℕ

/-- The `lineExists` duplicate test of App.tsx: some line joins `a` and
`b`, in either endpoint order. -/
def lineExistsBetween (lines : List ELine) (a b : ℕ) : Bool :=
  lines.any fun l =>
    decide ((l.startNodeId = a ∧ l.endNodeId = b) ∨
      (l.startNodeId = b ∧ l.endNodeId = a))

variable {α : Type}

/-- `handleNodeClick` of App.tsx. -/
def handleNodeClick (s : EditorState α) (nodeId : ℕ) : EditorState α :=
  if s.drawingMode = DrawMode.line then
    match s.lineStartNodeId with
    | none =>
      { s with lineStartNodeId := some nodeId,
               selected := some (Selected.node nodeId) }
    | some a =>
      let s1 :=
        if nodeId ≠ a ∧ lineExistsBetween s.lines a nodeId = false then
          { s with lines := s.lines ++ [⟨s.nextId, a, nodeId⟩],
                   nextId := s.nextId + 1 }
        else s
      { s1 with lineStartNodeId := none, selected := none }
  else
    { s with drawingMode := DrawMode.line, lineStartNodeId := some nodeId,
             selected := some (Selected.node nodeId) }

/-- `handleLineClick` of App.tsx. -/
def handleLineClick (s : EditorState α) (lineId : ℕ) : EditorState α :=
  { s with selected := some (Selected.line lineId),
           drawingMode := DrawMode.node, lineStartNodeId := none }

/-- The split branch of `handleCanvasBackgroundClick` in node mode: a new
node at the click point, the hit line replaced by its two halves. -/
def splitLine (s : EditorState α) (l : ELine) (p : α) : EditorState α :=
  { s with
    selected := some (Selected.node s.nextId)
    nodes := s.nodes ++ [⟨s.nextId, p⟩]
    lines := (s.lines.filter fun k => decide (k.id ≠ l.id)) ++
      [⟨s.nextId + 1, l.startNodeId, s.nextId⟩,
       ⟨s.nextId + 2, s.nextId, l.endNodeId⟩]
    nextId := s.nextId + 3 }

/-- The standalone-add branch of `handleCanvasBackgroundClick` in node
mode (no line within hit distance). -/
def addStandaloneNode (s : EditorState α) (p : α) : EditorState α :=
  { s with
    selected := some (Selected.node s.nextId)
    nodes := s.nodes ++ [⟨s.nextId, p⟩]
    nextId := s.nextId + 1 }

/-- `handleCanvasBackgroundClick` in line mode: always add a node; first
click records it as the pending line start, second click completes the
line unless the pair already exists (in either order). -/
def canvasClickLineMode (s : EditorState α) (p : α) : EditorState α :=
  match s.lineStartNodeId with
  | none =>
    { s with nodes := s.nodes ++ [⟨s.nextId, p⟩], nextId := s.nextId + 1,
             lineStartNodeId := some s.nextId,
             selected := some (Selected.node s.nextId) }
  | some a =>
    if lineExistsBetween s.lines a s.nextId = false then
      { s with nodes := s.nodes ++ [⟨s.nextId, p⟩],
               lines := s.lines ++ [⟨s.nextId + 1, a, s.nextId⟩],
               nextId := s.nextId + 2,
               lineStartNodeId := none,
               selected := some (Selected.line (s.nextId + 1)) }
    else
      { s with nodes := s.nodes ++ [⟨s.nextId, p⟩], nextId := s.nextId + 1,
               lineStartNodeId := none, selected := none }

/-- `handleDeleteNode` of App.tsx: the node goes, incident lines cascade,
a pending line start on it is cleared. -/
def handleDeleteNode (s : EditorState α) (nodeId : ℕ) : EditorState α :=
  { s with
    selected := if s.selected = some (Selected.node nodeId) then none else s.selected
    nodes := s.nodes.filter fun n => decide (n.id ≠ nodeId)
    lines := s.lines.filter fun l =>
      decide (l.startNodeId ≠ nodeId ∧ l.endNodeId ≠ nodeId)
    lineStartNodeId :=
      if s.lineStartNodeId = some nodeId then none else s.lineStartNodeId }

/-- `handleDeleteLine` of App.tsx: the line goes; the `window.confirm`
answer about also removing newly orphaned endpoint nodes is the
`removeOrphans` argument. -/
def handleDeleteLine (s : EditorState α) (lineId : ℕ) (removeOrphans : Bool) :
    EditorState α :=
  match s.lines.find? (fun l => decide (l.id = lineId)) with
  | none => s
  | some lineToRemove =>
    let remaining := s.lines.filter fun l => decide (l.id ≠ lineId)
    let orphaned : List ℕ :=
      [lineToRemove.startNodeId, lineToRemove.endNodeId].filter fun nid =>
        !(remaining.any fun l => decide (l.startNodeId = nid ∨ l.endNodeId = nid))
    { s with
      selected := if s.selected = some (Selected.line lineId) then none else s.selected
      nodes := if removeOrphans = true ∧ orphaned ≠ [] then
          s.nodes.filter fun n => decide (n.id ∉ orphaned)
        else s.nodes
      lines := remaining }

/-- `handleReset` of App.tsx (the id clock keeps running). -/
def handleReset (s : EditorState α) : EditorState α :=
  ⟨[], [], DrawMode.node, none, none, s.nextId⟩

/-- The Add Node / Add Line mode buttons. -/
def setDrawingMode (s : EditorState α) (m : DrawMode) : EditorState α :=
  { s with drawingMode := m }

/-- `handleUpdateNode` of App.tsx: reposition one node (the two-decimal
rounding of the source is folded into `p`). -/
def handleUpdateNode (s : EditorState α) (nodeId : ℕ) (p : α) : EditorState α :=
  { s with nodes := s.nodes.map fun n => if n.id = nodeId then ⟨n.id, p⟩ else n }

/-- The editor's empty initial state. -/
def initialState (α : Type) : EditorState α :=
  ⟨[], [], DrawMode.node, none, none, 0⟩

/-- One user operation.  The geometric hit test of the canvas
(`distToSegment(point) < 5` choosing the line to split) is abstracted:
the split transition may fire on any line of the collection, covering
every outcome of the hit test, and the standalone-add transition covers
the no-hit outcome; `onNodeClick`/`onLineClick` fire only on rendered
elements, recorded by the membership guards. -/
inductive Step (α : Type) : EditorState α → EditorState α → Prop
  | clickNode (s : EditorState α) (n : ENode α) (hn : n ∈ s.nodes) :
      Step α s (handleNodeClick s n.id)
  | clickLine (s : EditorState α) (l : ELine) (hl : l ∈ s.lines) :
      Step α s (handleLineClick s l.id)
  | canvasSplit (s : EditorState α) (l : ELine) (p : α)
      (hm : s.drawingMode = DrawMode.node) (hl : l ∈ s.lines) :
      Step α s (splitLine s l p)
  | canvasAddNode (s : EditorState α) (p : α)
      (hm : s.drawingMode = DrawMode.node) :
      Step α s (addStandaloneNode s p)
  | canvasLineMode (s : EditorState α) (p : α)
      (hm : s.drawingMode = DrawMode.line) :
      Step α s (canvasClickLineMode s p)
  | deleteNode (s : EditorState α) (nodeId : ℕ) :
      Step α s (handleDeleteNode s nodeId)
  | deleteLine (s : EditorState α) (lineId : ℕ) (removeOrphans : Bool) :
      Step α s (handleDeleteLine s lineId removeOrphans)
  | reset (s : EditorState α) : Step α s (handleReset s)
  | setMode (s : EditorState α) (m : DrawMode) : Step α s (setDrawingMode s m)
  | updateNode (s : EditorState α) (nodeId : ℕ) (p : α) :
      Step α s (handleUpdateNode s nodeId p)

/-- The states the editor can reach from empty through user operations. -/
inductive Reachable (α : Type) : EditorState α → Prop
  | init : Reachable α (initialState α)
  | step {s s' : EditorState α} :
      Reachable α s → Step α s s' → Reachable α s'

/-- Two lines join the same unordered pair of endpoint node ids. -/
def samePair (l₁ l₂ : ELine) : Prop :=
  (l₁.startNodeId = l₂.startNodeId ∧ l₁.endNodeId = l₂.endNodeId) ∨
  (l₁.startNodeId = l₂.endNodeId ∧ l₁.endNodeId = l₂.startNodeId)

instance : DecidablePred fun p : ELine × ELine => samePair p.1 p.2 :=
  fun _ => by unfold samePair; infer_instance

/-- The inductive invariant: node ids, line endpoint ids and the pending
line start are all below the id counter; no line is a self-loop; and no
two lines join the same unordered endpoint pair. -/
def GoodState (s : EditorState α) : Prop :=
  (∀ n ∈ s.nodes, n.id < s.nextId) ∧
  (∀ l ∈ s.lines, l.startNodeId < s.nextId ∧ l.endNodeId < s.nextId ∧
      l.startNodeId ≠ l.endNodeId) ∧
  (∀ a : ℕ, s.lineStartNodeId = some a → a < s.nextId) ∧
  s.lines.Pairwise fun l₁ l₂ => ¬ samePair l₁ l₂

lemma lineExistsBetween_iff (lines : List ELine) (a b : ℕ) :
    lineExistsBetween lines a b = true ↔
      ∃ l ∈ lines, (l.startNodeId = a ∧ l.endNodeId = b) ∨
        (l.startNodeId = b ∧ l.endNodeId = a) := by
  unfold lineExistsBetween
  simp [List.any_eq_true, decide_eq_true_eq]

lemma pairwise_filter {p : ELine → Bool} {l : List ELine}
    (h : l.Pairwise fun l₁ l₂ => ¬ samePair l₁ l₂) :
    (l.filter p).Pairwise fun l₁ l₂ => ¬ samePair l₁ l₂ :=
  h.sublist (List.filter_sublist l)

lemma good_clickLine {s : EditorState α} (h : GoodState s) (lineId : ℕ) :
    GoodState (handleLineClick s lineId) := by
  obtain ⟨h1, h2, h3, h4⟩ := h
  simp only [GoodState, handleLineClick]
  refine ⟨h1, h2, ?_, h4⟩
  intro a ha
  cases ha

lemma good_setMode {s : EditorState α} (h : GoodState s) (m : DrawMode) :
    GoodState (setDrawingMode s m) := by
  obtain ⟨h1, h2, h3, h4⟩ := h
  exact ⟨h1, h2, h3, h4⟩

lemma good_reset {s : EditorState α} (h : GoodState s) :
    GoodState (handleReset s) := by
  refine ⟨?_, ?_, ?_, ?_⟩ <;> simp [handleReset]

lemma good_updateNode {s : EditorState α} (h : GoodState s) (nodeId : ℕ) (p : α) :
    GoodState (handleUpdateNode s nodeId p) := by
  obtain ⟨h1, h2, h3, h4⟩ := h
  refine ⟨?_, h2, h3, h4⟩
  intro n hn
  rcases List.mem_map.mp hn with ⟨m, hm, rfl⟩
  by_cases hid : m.id = nodeId
  · rw [if_pos hid]
    exact hid ▸ h1 m hm
  · rw [if_neg hid]
    exact h1 m hm

lemma good_addStandaloneNode {s : EditorState α} (h : GoodState s) (p : α) :
    GoodState (addStandaloneNode s p) := by
  obtain ⟨h1, h2, h3, h4⟩ := h
  refine ⟨?_, ?_, ?_, h4⟩
  · intro n hn
    rcases List.mem_append.mp hn with hn | hn
    · exact Nat.lt_succ_of_lt (h1 n hn)
    · rcases List.mem_singleton.mp hn with rfl
      exact Nat.lt_succ_self _
  · intro l hl
    obtain ⟨x, y, z⟩ := h2 l hl
    exact ⟨Nat.lt_succ_of_lt x, Nat.lt_succ_of_lt y, z⟩
  · intro a ha
    exact Nat.lt_succ_of_lt (h3 a ha)

lemma good_deleteNode {s : EditorState α} (h : GoodState s) (nodeId : ℕ) :
    GoodState (handleDeleteNode s nodeId) := by
  obtain ⟨h1, h2, h3, h4⟩ := h
  simp only [GoodState, handleDeleteNode]
  refine ⟨?_, ?_, ?_, pairwise_filter h4⟩
  · intro n hn
    exact h1 n (List.mem_of_mem_filter hn)
  · intro l hl
    exact h2 l (List.mem_of_mem_filter hl)
  · intro a ha
    by_cases hc : s.lineStartNodeId = some nodeId
    · rw [if_pos hc] at ha; cases ha
    · rw [if_neg hc] at ha; exact h3 a ha

lemma good_deleteLine {s : EditorState α} (h : GoodState s) (lineId : ℕ)
    (removeOrphans : Bool) :
    GoodState (handleDeleteLine s lineId removeOrphans) := by
  obtain ⟨h1, h2, h3, h4⟩ := h
  unfold handleDeleteLine
  cases hf : s.lines.find? (fun l => decide (l.id = lineId)) with
  | none => exact ⟨h1, h2, h3, h4⟩
  | some lineToRemove =>
    refine ⟨?_, ?_, h3, pairwise_filter h4⟩
    · intro n hn
      dsimp only at hn
      split at hn
      · first
        | exact h1 n hn
        | exact h1 n (List.mem_of_mem_filter hn)
      · first
        | exact h1 n hn
        | exact h1 n (List.mem_of_mem_filter hn)
    · intro l hl
      exact h2 l (List.mem_of_mem_filter hl)

/-- Appending a line whose endpoint pair is not yet present preserves the
pairwise distinctness of endpoint pairs. -/
lemma pairwise_append_line {lines : List ELine} {newLine : ELine}
    (h : lines.Pairwise fun l₁ l₂ => ¬ samePair l₁ l₂)
    (hnew : ∀ l ∈ lines, ¬ samePair l newLine) :
    (lines ++ [newLine]).Pairwise fun l₁ l₂ => ¬ samePair l₁ l₂ := by
  rw [List.pairwise_append]
  refine ⟨h, List.pairwise_singleton _ _, ?_⟩
  intro l₁ hl₁ l₂ hl₂
  rcases List.mem_singleton.mp hl₂ with rfl
  exact hnew l₁ hl₁

lemma good_clickNode {s : EditorState α} (h : GoodState s) (b : ℕ)
    (hb : b < s.nextId) : GoodState (handleNodeClick s b) := by
  obtain ⟨h1, h2, h3, h4⟩ := h
  unfold handleNodeClick
  by_cases hm : s.drawingMode = DrawMode.line
  · rw [if_pos hm]
    cases hls : s.lineStartNodeId with
    | none =>
      refine ⟨h1, h2, ?_, h4⟩
      intro x hx
      injection hx with hx
      subst hx
      exact hb
    | some a =>
      have ha : a < s.nextId := h3 a hls
      dsimp only
      by_cases hc : b ≠ a ∧ lineExistsBetween s.lines a b = false
      · rw [if_pos hc]
        refine ⟨?_, ?_, ?_, ?_⟩
        · intro n hn
          exact Nat.lt_succ_of_lt (h1 n hn)
        · intro l hl
          rcases List.mem_append.mp hl with hl | hl
          · obtain ⟨x, y, z⟩ := h2 l hl
            exact ⟨Nat.lt_succ_of_lt x, Nat.lt_succ_of_lt y, z⟩
          · rcases List.mem_singleton.mp hl with rfl
            exact ⟨Nat.lt_succ_of_lt ha, Nat.lt_succ_of_lt hb,
              fun he => hc.1 he.symm⟩
        · intro x hx
          cases hx
        · refine pairwise_append_line h4 ?_
          intro l hl hsp
          have : lineExistsBetween s.lines a b = true := by
            rw [lineExistsBetween_iff]
            rcases hsp with ⟨hx, hy⟩ | ⟨hx, hy⟩
            · exact ⟨l, hl, Or.inl ⟨hx, hy⟩⟩
            · exact ⟨l, hl, Or.inr ⟨hx, hy⟩⟩
          rw [hc.2] at this
          cases this
      · rw [if_neg hc]
        refine ⟨h1, h2, ?_, h4⟩
        intro x hx
        cases hx
  · rw [if_neg hm]
    refine ⟨h1, h2, ?_, h4⟩
    intro x hx
    injection hx with hx
    subst hx
    exact hb

lemma good_canvasLineMode {s : EditorState α} (h : GoodState s) (p : α) :
    GoodState (canvasClickLineMode s p) := by
  obtain ⟨h1, h2, h3, h4⟩ := h
  unfold canvasClickLineMode
  cases hls : s.lineStartNodeId with
  | none =>
    refine ⟨?_, ?_, ?_, h4⟩
    · intro n hn
      rcases List.mem_append.mp hn with hn | hn
      · exact Nat.lt_succ_of_lt (h1 n hn)
      · rcases List.mem_singleton.mp hn with rfl
        exact Nat.lt_succ_self _
    · intro l hl
      obtain ⟨x, y, z⟩ := h2 l hl
      exact ⟨Nat.lt_succ_of_lt x, Nat.lt_succ_of_lt y, z⟩
    · intro x hx
      injection hx with hx
      subst hx
      exact Nat.lt_succ_self _
  | some a =>
    have ha : a < s.nextId := h3 a hls
    dsimp only
    by_cases hc : lineExistsBetween s.lines a s.nextId = false
    · rw [if_pos hc]
      refine ⟨?_, ?_, ?_, ?_⟩
      · intro n hn
        rcases List.mem_append.mp hn with hn | hn
        · exact Nat.lt_add_right 2 (h1 n hn)
        · rcases List.mem_singleton.mp hn with rfl
          exact Nat.lt_add_of_pos_right (by norm_num)
      · intro l hl
        rcases List.mem_append.mp hl with hl | hl
        · obtain ⟨x, y, z⟩ := h2 l hl
          exact ⟨Nat.lt_add_right 2 x, Nat.lt_add_right 2 y, z⟩
        · rcases List.mem_singleton.mp hl with rfl
          refine ⟨Nat.lt_add_right 2 ha, Nat.lt_add_of_pos_right (by norm_num),
            Nat.ne_of_lt ha⟩
      · intro x hx
        cases hx
      · refine pairwise_append_line h4 ?_
        intro l hl hsp
        have hbound := h2 l hl
        rcases hsp with ⟨_, hy⟩ | ⟨hx, _⟩
        · exact absurd hy (Nat.ne_of_lt hbound.2.1)
        · exact absurd hx (Nat.ne_of_lt hbound.1)
    · rw [if_neg hc]
      refine ⟨?_, ?_, ?_, h4⟩
      · intro n hn
        rcases List.mem_append.mp hn with hn | hn
        · exact Nat.lt_succ_of_lt (h1 n hn)
        · rcases List.mem_singleton.mp hn with rfl
          exact Nat.lt_succ_self _
      · intro l hl
        obtain ⟨x, y, z⟩ := h2 l hl
        exact ⟨Nat.lt_succ_of_lt x, Nat.lt_succ_of_lt y, z⟩
      · intro x hx
        cases hx

lemma good_splitLine {s : EditorState α} (h : GoodState s) {l : ELine}
    (hl : l ∈ s.lines) (p : α) : GoodState (splitLine s l p) := by
  obtain ⟨h1, h2, h3, h4⟩ := h
  obtain ⟨hx, hy, hz⟩ := h2 l hl
  unfold splitLine
  refine ⟨?_, ?_, ?_, ?_⟩
  · intro n hn
    rcases List.mem_append.mp hn with hn | hn
    · exact Nat.lt_add_right 3 (h1 n hn)
    · rcases List.mem_singleton.mp hn with rfl
      exact Nat.lt_add_of_pos_right (by norm_num)
  · intro k hk
    rcases List.mem_append.mp hk with hk | hk
    · obtain ⟨x, y, z⟩ := h2 k (List.mem_of_mem_filter hk)
      exact ⟨Nat.lt_add_right 3 x, Nat.lt_add_right 3 y, z⟩
    · rcases List.mem_cons.mp hk with rfl | hk
      · exact ⟨Nat.lt_add_right 3 hx, Nat.lt_add_of_pos_right (by norm_num),
          Nat.ne_of_lt hx⟩
      · rcases List.mem_singleton.mp hk with rfl
        exact ⟨Nat.lt_add_of_pos_right (by norm_num), Nat.lt_add_right 3 hy,
          Nat.ne_of_gt hy⟩
  · intro x hx'
    exact Nat.lt_add_right 3 (h3 x hx')
  · rw [List.pairwise_append]
    refine ⟨pairwise_filter h4, ?_, ?_⟩
    · rw [List.pairwise_cons]
      refine ⟨?_, List.pairwise_singleton _ _⟩
      intro k hk
      rcases List.mem_singleton.mp hk with rfl
      intro hsp
      rcases hsp with ⟨hp, hq⟩ | ⟨hp, hq⟩
      · exact Nat.ne_of_lt hx hp
      · exact hz hp
    · intro k₁ hk₁ k₂ hk₂
      obtain ⟨x, y, _⟩ := h2 k₁ (List.mem_of_mem_filter hk₁)
      rcases List.mem_cons.mp hk₂ with rfl | hk₂
      · intro hsp
        rcases hsp with ⟨_, hq⟩ | ⟨hp, _⟩
        · exact Nat.ne_of_lt y hq
        · exact Nat.ne_of_lt x hp
      · rcases List.mem_singleton.mp hk₂ with rfl
        intro hsp
        rcases hsp with ⟨hp, _⟩ | ⟨_, hq⟩
        · exact Nat.ne_of_lt x hp
        · exact Nat.ne_of_lt y hq

lemma good_initial : GoodState (initialState α) := by
  refine ⟨?_, ?_, ?_, ?_⟩ <;> simp [initialState]

/-- Every reachable editor state satisfies the inductive invariant. -/
lemma reachable_good {s : EditorState α} (h : Reachable α s) : GoodState s := by
  induction h with
  | init => exact good_initial
  | step _ hs ih =>
    cases hs with
    | clickNode n hn => exact good_clickNode ih n.id (ih.1 n hn)
    | clickLine l hl => exact good_clickLine ih l.id
    | canvasSplit l p hm hl => exact good_splitLine ih hl p
    | canvasAddNode p hm => exact good_addStandaloneNode ih p
    | canvasLineMode p hm => exact good_canvasLineMode ih p
    | deleteNode nodeId => exact good_deleteNode ih nodeId
    | deleteLine lineId removeOrphans => exact good_deleteLine ih lineId removeOrphans
    | reset => exact good_reset ih
    | setMode m => exact good_setMode ih m
    | updateNode nodeId p => exact good_updateNode ih nodeId p

/-- C9: in every state reachable from the empty state through the
editor's user operations (adding nodes, connecting nodes into lines,
splitting a line, deleting nodes and lines, and the rest of the
handlers), no two lines in the collection join the same unordered pair of
endpoint node ids; and completing a line whose endpoint pair already
exists, in either order, is a silent no-op that keeps the line collection
unchanged. -/
theorem no_duplicate_line_pairs (s : EditorState α) (h : Reachable α s) :
    (s.lines.Pairwise fun l₁ l₂ => ¬ samePair l₁ l₂) ∧
    (∀ a b : ℕ, s.drawingMode = DrawMode.line → s.lineStartNodeId = some a →
      (∃ l ∈ s.lines, (l.startNodeId = a ∧ l.endNodeId = b) ∨
        (l.startNodeId = b ∧ l.endNodeId = a)) →
      (handleNodeClick s b).lines = s.lines) := by
  refine ⟨(reachable_good h).2.2.2, ?_⟩
  intro a b hm hls hex
  have hdup : lineExistsBetween s.lines a b = true :=
    (lineExistsBetween_iff s.lines a b).mpr hex
  have hcond : ¬(b ≠ a ∧ lineExistsBetween s.lines a b = false) := by
    rintro ⟨_, hf⟩
    rw [hdup] at hf
    cases hf
  unfold handleNodeClick
  rw [if_pos hm, hls]
  dsimp only
  rw [if_neg hcond]

/-- A concrete editor trace: switch to line mode, click the canvas twice
(creating nodes 0 and 1 and the line between them). -/
def demo1 : EditorState Unit := setDrawingMode (initialState Unit) DrawMode.line

/-- Second state of the demo trace. -/
def demo2 : EditorState Unit := canvasClickLineMode demo1 ()

/-- Third state of the demo trace: one line drawn. -/
def demo3 : EditorState Unit := canvasClickLineMode demo2 ()

lemma reachable_demo3 : Reachable Unit demo3 :=
  Reachable.step
    (Reachable.step
      (Reachable.step Reachable.init (Step.setMode _ DrawMode.line))
      (Step.canvasLineMode _ () rfl))
    (Step.canvasLineMode _ () rfl)

/-- Witness for C9: the demo trace's final state. -/
theorem no_duplicate_line_pairs_witness :
    (demo3.lines.Pairwise fun l₁ l₂ => ¬ samePair l₁ l₂) ∧
    (∀ a b : ℕ, demo3.drawingMode = DrawMode.line →
      demo3.lineStartNodeId = some a →
      (∃ l ∈ demo3.lines, (l.startNodeId = a ∧ l.endNodeId = b) ∨
        (l.startNodeId = b ∧ l.endNodeId = a)) →
      (handleNodeClick demo3 b).lines = demo3.lines) :=
  no_duplicate_line_pairs demo3 reachable_demo3

end WeldApp
